import Mathlib

/-!
The EC2 price-list ingestion pipeline of cloudCost (`main.go`).

A shallow embedding of the record normalisation (`processProducts`,
`processTerms`, `mapToSlice`, `defaultIfEmpty`), of the library calls they
rely on (`strconv.Atoi`, the GORM calls `FirstOrCreate`, `Scan`, `Create`) and
of the store loop of `main`, followed by the properties proved about them.

Conventions.
* A Go `string` is a Lean `String`; its bytes are the UTF-8 encoding
  (`goBytes`).  Strings decoded by `encoding/json` are valid UTF-8.
* Go `int` is 64 bits wide (`intSize`).
* A Go map is `GoMap`: the nil map, or its entries listed in the order in which
  the `range` statement of this execution visits them.  Go leaves that order
  unspecified; every theorem quantifies over all entry lists.
-/

namespace CloudCost

/-! ## Strings and bytes -/

/-- UTF-8 encoding of one code point, as byte values. -/
def utf8Bytes (c : Char) : List Nat :=
  let n := c.toNat
  if n < 0x80 then [n]
  else if n < 0x800 then [0xC0 + n / 64, 0x80 + n % 64]
  else if n < 0x10000 then [0xE0 + n / 4096, 0x80 + n / 64 % 64, 0x80 + n % 64]
  else [0xF0 + n / 262144, 0x80 + n / 4096 % 64, 0x80 + n / 64 % 64, 0x80 + n % 64]

/-- Bytes of a list of code points. -/
def bytesOf : List Char → List Nat
  | [] => []
  | c :: cs => utf8Bytes c ++ bytesOf cs

/-- The byte sequence of a Go string (`[]byte(s)`). -/
def goBytes (s : String) : List Nat := bytesOf s.toList

/-! ## `strconv.Atoi` (Go standard library) -/

/-- The two error kinds a `*strconv.NumError` of `Atoi` can carry. -/
inductive NumError where
  | ErrSyntax
  | ErrRange
  deriving DecidableEq, Repr

/-- Width of Go's `int` (`strconv.IntSize`). -/
def intSize : Nat := 64

/-- Largest `uint64`. -/
def maxUint64 : Nat := 2 ^ 64 - 1

/-- Conversion `int64(u)` of a `uint64`: two's complement reinterpretation. -/
def toInt64 (u : Nat) : Int :=
  if u % 2 ^ 64 < 2 ^ 63 then ((u % 2 ^ 64 : Nat) : Int) else ((u % 2 ^ 64 : Nat) : Int) - 2 ^ 64

/-- Negation of an `int64`, wrapping at the width. -/
def negInt64 (n : Int) : Int :=
  if n = -(2 ^ 63) then n else -n

/-- The helper `lower(c)` of package strconv: `c | ('x' - 'X')`. -/
def lower (c : Nat) : Nat := c ||| 0x20

/-- The digit value the loop of `ParseUint` assigns to byte `c`
(`none` is the `default:` branch, a syntax error).  The underscore branch is
dead here: it needs `base == 0`. -/
def digitOf (c : Nat) : Option Nat :=
  if 48 ≤ c ∧ c ≤ 57 then some (c - 48)
  else if 97 ≤ lower c ∧ lower c ≤ 122 then some (lower c - 97 + 10)
  else none

/-- The loop of `strconv.ParseUint(s, base, bitSize)` over the bytes of `s`,
with `n` the value accumulated so far (a `uint64`). -/
def parseUintLoop (base cutoff maxVal : Nat) : List Nat → Nat → Nat × Option NumError
  | [], n => (n, none)
  | c :: cs, n =>
    match digitOf c with
    | none => (0, some NumError.ErrSyntax)
    | some d =>
      if d ≥ base then (0, some NumError.ErrSyntax)
      else if n ≥ cutoff then (maxVal, some NumError.ErrRange)
      else
        let n10 := n * base % 2 ^ 64
        let n1 := (n10 + d) % 2 ^ 64
        if n1 < n10 ∨ n1 > maxVal then (maxVal, some NumError.ErrRange)
        else parseUintLoop base cutoff maxVal cs n1

/-- The call `strconv.ParseUint(s, 10, 0)` on the bytes of `s`. -/
def ParseUint (s : List Nat) : Nat × Option NumError :=
  if s = [] then (0, some NumError.ErrSyntax)
  else parseUintLoop 10 (maxUint64 / 10 + 1) (2 ^ intSize - 1) s 0

/-- The call `strconv.ParseInt(s, 10, 0)` on the bytes of `s`. -/
def ParseInt (s : List Nat) : Int × Option NumError :=
  match s with
  | [] => (0, some NumError.ErrSyntax)
  | c0 :: rest =>
    let neg : Bool := c0 = 45
    let body : List Nat := if c0 = 43 ∨ c0 = 45 then rest else s
    match ParseUint body with
    | (_, some NumError.ErrSyntax) => (0, some NumError.ErrSyntax)
    | (un, _) =>
      let cutoff : Nat := 2 ^ (intSize - 1)
      if neg = false ∧ un ≥ cutoff then (((cutoff - 1 : Nat) : Int), some NumError.ErrRange)
      else if neg = true ∧ un > cutoff then (-((cutoff : Nat) : Int), some NumError.ErrRange)
      else
        let n := toInt64 un
        (if neg then negInt64 n else n, none)

/-- The loop of the fast path of `Atoi`: `ch -= '0'` on a byte, then
`n = n*10 + int(ch)`.  `none` is the syntax-error return. -/
def atoiFastLoop : List Nat → Int → Option Int
  | [], n => some n
  | ch :: cs, n =>
    let ch1 := (ch + 256 - 48) % 256
    if ch1 > 9 then none else atoiFastLoop cs (n * 10 + (ch1 : Int))

/-- The function `strconv.Atoi` on the bytes of its argument: the value and
the error it returns.  Short inputs take the fast path, the others go
through `ParseInt(s, 10, 0)`. -/
def AtoiBytes (s : List Nat) : Int × Option NumError :=
  if 0 < s.length ∧ s.length < 19 then
    match s with
    | [] => (0, some NumError.ErrSyntax)
    | c0 :: rest =>
      let signed : Bool := c0 = 45 ∨ c0 = 43
      let body : List Nat := if signed then rest else s
      if signed = true ∧ body.length < 1 then (0, some NumError.ErrSyntax)
      else
        match atoiFastLoop body 0 with
        | none => (0, some NumError.ErrSyntax)
        | some n => (if c0 = 45 then -n else n, none)
  else ParseInt s

/-- The function `strconv.Atoi` on a Go string. -/
def Atoi (s : String) : Int × Option NumError := AtoiBytes (goBytes s)

/-! ## Go maps -/

/-- A Go `map[string]α`: the nil map or a list of entries in iteration order. -/
inductive GoMap (α : Type) where
  | nil
  | mk (entries : List (String × α))
  deriving DecidableEq, Repr

/-- The entries a `range` over the map visits; none for the nil map. -/
def GoMap.entries {α : Type} : GoMap α → List (String × α)
  | GoMap.nil => []
  | GoMap.mk es => es

/-- The index expression `m[k]`: the stored value, or the zero value of the
element type when the key is absent or the map is nil. -/
def GoMap.index {α : Type} (m : GoMap α) (k : String) (zero : α) : α :=
  match m.entries.find? (fun e => e.1 == k) with
  | some e => e.2
  | none => zero

/-- Whether key `k` is present in the map. -/
def GoMap.hasKey {α : Type} (m : GoMap α) (k : String) : Bool :=
  m.entries.any (fun e => e.1 == k)

/-- The builtin `len(m)`. -/
def GoMap.len {α : Type} (m : GoMap α) : Nat := m.entries.length

/-! ## Data model (the structs of `main.go`) -/

structure Provider where
  ID : Nat
  ProviderName : String
  deriving DecidableEq, Repr

structure Service where
  ID : Nat
  ServiceName : String
  ProviderID : Nat
  deriving DecidableEq, Repr

structure Region where
  ID : Nat
  RegionCode : String
  ServiceID : Nat
  deriving DecidableEq, Repr

structure Product where
  SKU : String
  ProductFamily : String
  Attributes : GoMap String
  deriving DecidableEq, Repr

structure SKU where
  ID : Nat
  SKUCode : String
  ProductFamily : String
  VCPU : Int
  OperatingSystem : String
  InstanceType : String
  Storage : String
  Network : String
  InstanceSKU : String
  Processor : String
  UsageType : String
  RegionID : Nat
  deriving DecidableEq, Repr

/-- A `time.Time`, as an instant count; `0` stands for the zero value. -/
abbrev Time := Nat

structure Term where
  OfferTermID : Int
  SKU_ID : Int
  OfferTermCode : String
  LeaseContractLength : String
  PurchaseOption : String
  OfferingClass : String
  CreatedAt : Time
  ModifiedAt : Time
  DisableFlag : Bool
  deriving DecidableEq, Repr

structure TermAttributes where
  LeaseContractLength : String
  PurchaseOption : String
  OfferingClass : String
  deriving DecidableEq, Repr

structure PriceDimension where
  PricePerUnit : GoMap String
  RateCode : String
  Description : String
  BeginRange : String
  EndRange : String
  Unit : String
  deriving DecidableEq, Repr

structure TermDetails where
  SKU : String
  OfferTermCode : String
  TermAttributes : TermAttributes
  PriceDimensions : GoMap PriceDimension
  deriving DecidableEq, Repr

structure PricingData where
  Products : GoMap Product
  Terms : GoMap (GoMap (GoMap TermDetails))
  deriving DecidableEq, Repr

/-! ## Normalisation of a product -/

/-- The helper `defaultIfEmpty`. -/
def defaultIfEmpty (value defaultValue : String) : String :=
  if value = "" then defaultValue else value

/-- The attribute read `product.Attributes[key]`. -/
def attr (p : Product) (key : String) : String := p.Attributes.index key ""

/-- The SKU record `processProducts` builds for one product (lines 135-150):
`vcpu, _ := strconv.Atoi(...)` keeps the value `Atoi` returns and drops its
error. -/
def buildSKU (product : Product) (regionID : Nat) : SKU :=
  let vcpu := (Atoi (defaultIfEmpty (attr product "vcpu") "0")).1
  { ID := 0
    SKUCode := product.SKU
    ProductFamily := product.ProductFamily
    VCPU := vcpu
    OperatingSystem := attr product "operatingSystem"
    InstanceType := attr product "instanceType"
    Storage := attr product "storage"
    Network := attr product "networkPerformance"
    InstanceSKU := attr product "instancesku"
    Processor := attr product "physicalProcessor"
    UsageType := attr product "usagetype"
    RegionID := regionID }

/-- The helper `mapToSlice`: one `append` per entry the `range` visits. -/
def mapToSlice (productsMap : GoMap Product) : List Product :=
  productsMap.entries.foldl (fun productsSlice e => productsSlice ++ [e.2]) []

/-! ## The store (GORM over PostgreSQL)

The database is the five tables and a record of the calls received.  A call
can fail for reasons outside the program (connection, server): a fault
schedule says, for the n-th call the store receives, whether it fails.  A
failing call changes no table and reports an error. -/

/-- A table: its rows in primary-key order and the last value its id sequence
handed out. -/
structure Table (α : Type) where
  rows : List α
  seq : Nat
  deriving DecidableEq, Repr

/-- The store calls the program makes. -/
inductive Call where
  | firstOrCreateProvider (dest : Provider)
  | firstOrCreateService (dest : Service)
  | firstOrCreateRegion (dest : Region)
  | firstOrCreateSKU (dest : SKU)
  | scanSKUID (skuCode : String)
  | createTerm (value : Term)
  deriving DecidableEq, Repr

/-- One received call and whether its `.Error` was non-nil. -/
structure Received where
  call : Call
  failed : Bool
  deriving DecidableEq, Repr

structure DB where
  providers : Table Provider
  services : Table Service
  regions : Table Region
  skus : Table SKU
  terms : Table Term
  log : List Received
  deriving DecidableEq, Repr

/-- For each call index, whether the store fails that call. -/
abbrev Faults := Nat → Bool

/-- The schedule without any failure. -/
def noFaults : Faults := fun _ => false

/-- The database right after `AutoMigrate` on a fresh server. -/
def emptyDB : DB :=
  { providers := ⟨[], 0⟩, services := ⟨[], 0⟩, regions := ⟨[], 0⟩, skus := ⟨[], 0⟩,
    terms := ⟨[], 0⟩, log := [] }

/-- The WHERE clause GORM builds from a condition struct whose only set field
is the natural key: GORM keeps the non-zero fields of a struct condition, so
an empty key gives no clause at all and every row matches. -/
def structCond (key rowKey : String) : Bool := key == "" || rowKey == key

/-- The call `FirstOrCreate(&dest, T{Key: key})` on a table: the first row in
primary-key order that satisfies the condition is loaded into `dest`; when
there is none, `dest` is inserted with the next id.  Returns the table and
`dest` after the call. -/
def Table.firstOrCreate {α : Type} (keyOf : α → String) (withID : α → Nat → α)
    (t : Table α) (dest : α) : Table α × α :=
  match t.rows.find? (fun row => structCond (keyOf dest) (keyOf row)) with
  | some row => (t, row)
  | none =>
    let row := withID dest (t.seq + 1)
    ({ rows := t.rows ++ [row], seq := t.seq + 1 }, row)

/-- The row `x` with the primary key the insert returned. -/
def Provider.setID (x : Provider) (i : Nat) : Provider := { x with ID := i }

/-- The row `x` with the primary key the insert returned. -/
def Service.setID (x : Service) (i : Nat) : Service := { x with ID := i }

/-- The row `x` with the primary key the insert returned. -/
def Region.setID (x : Region) (i : Nat) : Region := { x with ID := i }

/-- The row `x` with the primary key the insert returned. -/
def SKU.setID (x : SKU) (i : Nat) : SKU := { x with ID := i }

/-- Appends a received call to the log. -/
def DB.record (db : DB) (c : Call) (failed : Bool) : DB :=
  { db with log := db.log ++ [⟨c, failed⟩] }

/-- The call `db.FirstOrCreate(&provider, Provider{ProviderName: ...})`. -/
def firstOrCreateProvider (f : Faults) (db : DB) (dest : Provider) : DB × Provider × Bool :=
  if f db.log.length then (db.record (Call.firstOrCreateProvider dest) true, dest, true)
  else
    let r := db.providers.firstOrCreate (fun x => x.ProviderName) Provider.setID dest
    ({ db with providers := r.1 }.record (Call.firstOrCreateProvider dest) false, r.2, false)

/-- The call `db.FirstOrCreate(&service, Service{ServiceName: ...})`. -/
def firstOrCreateService (f : Faults) (db : DB) (dest : Service) : DB × Service × Bool :=
  if f db.log.length then (db.record (Call.firstOrCreateService dest) true, dest, true)
  else
    let r := db.services.firstOrCreate (fun x => x.ServiceName) Service.setID dest
    ({ db with services := r.1 }.record (Call.firstOrCreateService dest) false, r.2, false)

/-- The call `db.FirstOrCreate(&regionEntry, Region{RegionCode: ...})`. -/
def firstOrCreateRegion (f : Faults) (db : DB) (dest : Region) : DB × Region × Bool :=
  if f db.log.length then (db.record (Call.firstOrCreateRegion dest) true, dest, true)
  else
    let r := db.regions.firstOrCreate (fun x => x.RegionCode) Region.setID dest
    ({ db with regions := r.1 }.record (Call.firstOrCreateRegion dest) false, r.2, false)

/-- The call `db.FirstOrCreate(&sku, SKU{SKUCode: sku.SKUCode})`. -/
def firstOrCreateSKU (f : Faults) (db : DB) (dest : SKU) : DB × SKU × Bool :=
  if f db.log.length then (db.record (Call.firstOrCreateSKU dest) true, dest, true)
  else
    let r := db.skus.firstOrCreate (fun x => x.SKUCode) SKU.setID dest
    ({ db with skus := r.1 }.record (Call.firstOrCreateSKU dest) false, r.2, false)

/-- The id of the first stored SKU row with the given code, if any. -/
def lookupSKUID (db : DB) (skuCode : String) : Option Nat :=
  (db.skus.rows.find? (fun row => row.SKUCode == skuCode)).map (fun row => row.ID)

/-- The call `db.Table("skus").Select("id").Where("sku_code = ?", skuCode).Scan(&skuID)`:
the row scanned, if any, and whether `.Error` is non-nil.  `Scan` reports an
error only when the query itself fails: an empty result set leaves the
destination untouched and `.Error` nil (GORM raises `ErrRecordNotFound` from
`First`, `Take` and `Last` only). -/
def scanSKUID (f : Faults) (db : DB) (skuCode : String) : DB × Option Nat × Bool :=
  if f db.log.length then (db.record (Call.scanSKUID skuCode) true, none, true)
  else (db.record (Call.scanSKUID skuCode) false, lookupSKUID db skuCode, false)

/-- The call `db.Create(&termEntry)`: the row is stored under the next id of
the sequence.  The storage-side defaults of the timestamps are outside the
model: the row keeps the values of the record passed. -/
def createTerm (f : Faults) (db : DB) (value : Term) : DB × Bool :=
  if f db.log.length then (db.record (Call.createTerm value) true, true)
  else
    let row := { value with OfferTermID := ((db.terms.seq + 1 : Nat) : Int) }
    ({ db with terms := { rows := db.terms.rows ++ [row], seq := db.terms.seq + 1 } }.record
      (Call.createTerm value) false, false)

/-! ## The processing functions of `main.go` -/

/-- The function `processProducts`: for every product, build the SKU record
and get-or-create it; the error only selects the log line. -/
def processProducts (f : Faults) (db : DB) : List Product → Nat → DB
  | [], _ => db
  | product :: rest, regionID =>
    let sku := buildSKU product regionID
    processProducts f (firstOrCreateSKU f db sku).1 rest regionID

/-- The Term record built at lines 177-183 from the scanned id and the term
details. -/
def buildTerm (skuID : Int) (termDetails : TermDetails) : Term :=
  { OfferTermID := 0
    SKU_ID := skuID
    OfferTermCode := termDetails.OfferTermCode
    LeaseContractLength := termDetails.TermAttributes.LeaseContractLength
    PurchaseOption := termDetails.TermAttributes.PurchaseOption
    OfferingClass := termDetails.TermAttributes.OfferingClass
    CreatedAt := 0
    ModifiedAt := 0
    DisableFlag := false }

/-- The body of the inner loop of `processTerms` (lines 166-190): scan the id
into `skuID` (declared `var skuID int`, so `0` unless a row is scanned),
`continue` when the scan reports an error, otherwise create the term. -/
def processTermEntry (f : Faults) (db : DB) (skuCode : String) (termDetails : TermDetails) : DB :=
  let r := scanSKUID f db skuCode
  if r.2.2 then r.1
  else
    let skuID : Int := match r.2.1 with
      | some id => (id : Int)
      | none => 0
    (createTerm f r.1 (buildTerm skuID termDetails)).1

/-- The inner loop of `processTerms` over the offer terms of one SKU key. -/
def processTermData (f : Faults) (db : DB) (skuCode : String) : List (String × TermDetails) → DB
  | [] => db
  | e :: rest => processTermData f (processTermEntry f db skuCode e.2) skuCode rest

/-- The outer loop of `processTerms` over the SKU keys. -/
def processTermGroups (f : Faults) (db : DB) : List (String × GoMap TermDetails) → DB
  | [] => db
  | g :: rest => processTermGroups f (processTermData f db g.1 g.2.entries) rest

/-- The function `processTerms`. -/
def processTerms (f : Faults) (db : DB) (terms : GoMap (GoMap TermDetails)) : DB :=
  processTermGroups f db terms.entries

/-- The function `processCurrentVersionFile` from the decoded document on
(lines 114-121); opening and decoding the file are in `Download`. -/
def processCurrentVersionFile (f : Faults) (db : DB) (data : PricingData) (regionID : Nat) : DB :=
  let productsSlice := mapToSlice data.Products
  let db1 := processProducts f db productsSlice regionID
  processTerms f db1 (data.Terms.index "OnDemand" GoMap.nil)

/-- One entry of the region index. -/
structure RegionInfo where
  RegionCode : String
  CurrentVersionUrl : String
  deriving DecidableEq, Repr

/-- What fetching a region's document gives: `downloadFile` fails (the region is
skipped), the file cannot be opened or decoded (`log.Fatalf` ends the
process), or the decoded document. -/
inductive Download where
  | failed
  | undecodable
  | decoded (data : PricingData)
  deriving DecidableEq, Repr

/-- The loop of `main` over the regions (lines 295-324).  The errors of
`FirstOrCreate` are not checked there. -/
def processRegions (f : Faults) (fetch : RegionInfo → Download) (serviceID : Nat) :
    DB → List (String × RegionInfo) → DB
  | db, [] => db
  | db, e :: rest =>
    let region := e.2
    let r := firstOrCreateRegion f db { ID := 0, RegionCode := region.RegionCode, ServiceID := serviceID }
    match fetch region with
    | Download.failed => processRegions f fetch serviceID r.1 rest
    | Download.undecodable => r.1
    | Download.decoded data =>
      processRegions f fetch serviceID (processCurrentVersionFile f r.1 data r.2.1.ID) rest

/-- The store operations of `main` (lines 287-324), given the decoded region
index and what fetching each region yields. -/
def main (f : Faults) (fetch : RegionInfo → Download) (db : DB)
    (regions : GoMap RegionInfo) : DB :=
  let p := firstOrCreateProvider f db { ID := 0, ProviderName := "AWS" }
  let s := firstOrCreateService f p.1
    { ID := 0, ServiceName := "AmazonEC2", ProviderID := p.2.1.ID }
  processRegions f fetch s.2.1.ID s.1 regions.entries

/-! ## Auxiliary notions used in the statements -/

/-- Every byte is an ASCII decimal digit. -/
def AllDigits (bs : List Nat) : Prop := ∀ b ∈ bs, 48 ≤ b ∧ b ≤ 57

/-- The number a sequence of ASCII digits denotes in base ten, continuing from
`acc`. -/
def decValue : List Nat → Nat → Nat
  | [], acc => acc
  | b :: bs, acc => decValue bs (acc * 10 + (b - 48))

/-- `field` is the value the attribute dictionary of `p` stores under `key`,
or the empty string when the dictionary has no such key. -/
def ReadsAttr (p : Product) (key field : String) : Prop :=
  (∀ v, (key, v) ∈ p.Attributes.entries → field = v) ∧
    (p.Attributes.hasKey key = false → field = "")

/-- Some row of the table satisfies the condition built from `key`: a
`FirstOrCreate` with that key finds a row. -/
def Table.Covered {α : Type} (keyOf : α → String) (t : Table α) (key : String) : Prop :=
  ∃ row ∈ t.rows, structCond key (keyOf row) = true

/-- The value left in `skuID` by a scan that reports no error: the id of the
first stored SKU row with code `skuCode`, or `0` when there is none. -/
def resolveSKUID (db : DB) (skuCode : String) : Int :=
  match lookupSKUID db skuCode with
  | some id => (id : Int)
  | none => 0

/-- The (SKU key, term details) pairs of a list of term groups, in the order
the two nested loops of `processTerms` visit them. -/
def flattenGroups : List (String × GoMap TermDetails) → List (String × TermDetails)
  | [] => []
  | g :: rest => g.2.entries.map (fun e => (g.1, e.2)) ++ flattenGroups rest

/-- The (SKU key, term details) pairs of a term map, in visiting order. -/
def termEntries (terms : GoMap (GoMap TermDetails)) : List (String × TermDetails) :=
  flattenGroups terms.entries

/-- The inner-loop body applied to a list of (SKU key, term details) pairs. -/
def processTermList (f : Faults) (db : DB) : List (String × TermDetails) → DB
  | [] => db
  | e :: rest => processTermList f (processTermEntry f db e.1 e.2) rest

/-- The Term records of the `Create` calls in a log, in order. -/
def createdTerms : List Received → List Term
  | [] => []
  | r :: rest =>
    match r.call with
    | Call.createTerm t => t :: createdTerms rest
    | _ => createdTerms rest

/-- Number of Term rows with the given SKU id and offer-term code. -/
def termCount (rows : List Term) (skuID : Int) (code : String) : Nat :=
  rows.countP (fun t => t.SKU_ID == skuID && t.OfferTermCode == code)

/-- A Term row without its storage-assigned primary key. -/
def Term.withoutID (t : Term) : Term := { t with OfferTermID := 0 }

/-- The region codes of the index, in visiting order. -/
def regionCodes (regions : GoMap RegionInfo) : List String :=
  regions.entries.map (fun e => e.2.RegionCode)

/-- The SKU codes of the products of one region's document; none when the
document is not fetched or not decoded. -/
def docSKUCodes (fetch : RegionInfo → Download) (region : RegionInfo) : List String :=
  match fetch region with
  | Download.decoded data => (mapToSlice data.Products).map (fun p => p.SKU)
  | _ => []

/-- The SKU codes of the products of all documents of a list of regions. -/
def skuCodesOf (fetch : RegionInfo → Download) : List (String × RegionInfo) → List String
  | [] => []
  | e :: rest => docSKUCodes fetch e.2 ++ skuCodesOf fetch rest

/-- The SKU codes of the products of all documents of the index. -/
def skuCodes (fetch : RegionInfo → Download) (regions : GoMap RegionInfo) : List String :=
  skuCodesOf fetch regions.entries

/-- A product with two attributes, used in the examples. -/
def exampleProduct : Product :=
  { SKU := "ABC123", ProductFamily := "Compute Instance",
    Attributes := GoMap.mk [("vcpu", "2"), ("operatingSystem", "Linux")] }

/-- A product whose only attribute is `vcpu`, with the given text. -/
def vcpuProduct (text : String) : Product :=
  { SKU := "A", ProductFamily := "F", Attributes := GoMap.mk [("vcpu", text)] }

/-- A product whose attribute dictionary is missing. -/
def bareProduct : Product := { SKU := "A", ProductFamily := "F", Attributes := GoMap.nil }

/-- A product with the given SKU code and no attributes. -/
def codeProduct (code : String) : Product :=
  { SKU := code, ProductFamily := "Compute Instance", Attributes := GoMap.nil }

/-- A region index with one region. -/
def exampleIndex : GoMap RegionInfo :=
  GoMap.mk [("US East (N. Virginia)",
    { RegionCode := "us-east-1", CurrentVersionUrl := "/x.json" })]

/-- The fetch that yields, for every region, a document with the example
product and one `OnDemand` term for it. -/
def exampleFetch : RegionInfo → Download := fun _ =>
  Download.decoded
    { Products := GoMap.mk [("ABC123", exampleProduct)],
      Terms := GoMap.mk [("OnDemand", GoMap.mk [("ABC123", GoMap.mk [("ABC123.JRTCKXETXF",
        { SKU := "ABC123", OfferTermCode := "JRTCKXETXF",
          TermAttributes := { LeaseContractLength := "1yr", PurchaseOption := "No Upfront",
                              OfferingClass := "" },
          PriceDimensions := GoMap.nil })])])] }

/-- Whether a store call is one of the four get-or-create calls. -/
def Call.isGetOrCreate : Call → Bool
  | Call.firstOrCreateProvider _ => true
  | Call.firstOrCreateService _ => true
  | Call.firstOrCreateRegion _ => true
  | Call.firstOrCreateSKU _ => true
  | Call.scanSKUID _ => false
  | Call.createTerm _ => false

/-- No get-or-create call recorded in the log failed. -/
def GetOrCreateOK (log : List Received) : Prop :=
  ∀ r ∈ log, r.call.isGetOrCreate = true → r.failed = false

/-- The fetch that yields, for every region, a document with two products:
one with code `A` and one whose code is the empty string. -/
def emptyCodeFetch : RegionInfo → Download := fun _ =>
  Download.decoded
    { Products := GoMap.mk [("k1", codeProduct "A"), ("k2", codeProduct "")],
      Terms := GoMap.nil }

/-- A region index with the two regions `r1` and `r2`, visited in that order. -/
def twoRegions : GoMap RegionInfo :=
  GoMap.mk [("a", { RegionCode := "r1", CurrentVersionUrl := "/1.json" }),
    ("b", { RegionCode := "r2", CurrentVersionUrl := "/2.json" })]

/-- The same index visited in the other order. -/
def twoRegionsSwapped : GoMap RegionInfo :=
  GoMap.mk [("b", { RegionCode := "r2", CurrentVersionUrl := "/2.json" }),
    ("a", { RegionCode := "r1", CurrentVersionUrl := "/1.json" })]

/-- The fetch in which the document of `r1` cannot be decoded and every other
region has a document with the single product `A`. -/
def brokenFetch : RegionInfo → Download := fun region =>
  if region.RegionCode = "r1" then Download.undecodable
  else Download.decoded { Products := GoMap.mk [("k1", codeProduct "A")], Terms := GoMap.nil }

/-- The schedule in which exactly the fifth call fails. -/
def failFifth : Faults := fun i => i == 4

/-- A store holding the single SKU `ABC123` under id 1. -/
def exampleDB : DB := processProducts noFaults emptyDB [exampleProduct] 7

/-- A term-detail record, used in the examples. -/
def exampleTerm : TermDetails :=
  { SKU := "ABC123", OfferTermCode := "JRTCKXETXF",
    TermAttributes := { LeaseContractLength := "1yr", PurchaseOption := "No Upfront",
                        OfferingClass := "standard" },
    PriceDimensions := GoMap.nil }

/-! ## Lemmas on `strconv.Atoi` -/

theorem decValue_ge (bs : List Nat) (acc : Nat) : acc ≤ decValue bs acc := by
  induction bs generalizing acc with
  | nil => simp [decValue]
  | cons b bs ih =>
    have := ih (acc * 10 + (b - 48))
    simp only [decValue]
    omega

theorem decValue_append (xs ys : List Nat) (acc : Nat) :
    decValue (xs ++ ys) acc = decValue ys (decValue xs acc) := by
  induction xs generalizing acc with
  | nil => simp [decValue]
  | cons b bs ih => simp [decValue, ih]

theorem allDigits_cons {b : Nat} {bs : List Nat} (h : AllDigits (b :: bs)) :
    (48 ≤ b ∧ b ≤ 57) ∧ AllDigits bs :=
  ⟨h b (List.mem_cons_self _ _), fun x hx => h x (List.mem_cons_of_mem _ hx)⟩

theorem atoiFastLoop_digits (bs : List Nat) (acc : Nat) (h : AllDigits bs) :
    atoiFastLoop bs (acc : Int) = some ((decValue bs acc : Nat) : Int) := by
  induction bs generalizing acc with
  | nil => simp [atoiFastLoop, decValue]
  | cons b bs ih =>
    obtain ⟨hb, hbs⟩ := allDigits_cons h
    have e : (b + 256 - 48) % 256 = b - 48 := by omega
    have hle : ¬ (b - 48 > 9) := by omega
    simp only [atoiFastLoop, decValue, e, hle, if_false]
    have := ih (acc * 10 + (b - 48)) hbs
    rw [← this]
    push_cast
    rfl

theorem digitOf_digit {b : Nat} (hb : 48 ≤ b ∧ b ≤ 57) : digitOf b = some (b - 48) := by
  simp [digitOf, hb.1, hb.2]

theorem parseUintLoop_digits (bs : List Nat) (acc : Nat) (h : AllDigits bs)
    (hv : decValue bs acc ≤ 18446744073709551615) :
    parseUintLoop 10 (maxUint64 / 10 + 1) (2 ^ intSize - 1) bs acc = (decValue bs acc, none) := by
  induction bs generalizing acc with
  | nil => simp [parseUintLoop, decValue]
  | cons b bs ih =>
    obtain ⟨hb, hbs⟩ := allDigits_cons h
    simp only [decValue] at hv
    have hge := decValue_ge bs (acc * 10 + (b - 48))
    have hcut : maxUint64 / 10 + 1 = 1844674407370955162 := by decide
    have hmax : 2 ^ intSize - 1 = 18446744073709551615 := by decide
    have h1 : ¬ (b - 48 ≥ 10) := by omega
    have h2 : ¬ (acc ≥ 1844674407370955162) := by omega
    have e10 : acc * 10 % 2 ^ 64 = acc * 10 := by
      apply Nat.mod_eq_of_lt; norm_num; omega
    have e1 : (acc * 10 + (b - 48)) % 2 ^ 64 = acc * 10 + (b - 48) := by
      apply Nat.mod_eq_of_lt; norm_num; omega
    have h3 : ¬ (acc * 10 + (b - 48) < acc * 10 ∨ acc * 10 + (b - 48) > 18446744073709551615) := by
      omega
    rw [parseUintLoop, digitOf_digit hb]
    simp only [hcut, hmax, h1, h2, e10, e1, h3, if_false, decValue]
    rw [← hmax, ← hcut]
    exact ih _ hbs hv

theorem ParseUint_digits (bs : List Nat) (h : AllDigits bs) (hne : bs ≠ [])
    (hv : decValue bs 0 ≤ 18446744073709551615) :
    ParseUint bs = (decValue bs 0, none) := by
  simp only [ParseUint, hne, if_false]
  exact parseUintLoop_digits bs 0 h hv

theorem AtoiBytes_digits (bs : List Nat) (h : AllDigits bs) (hne : bs ≠ [])
    (hv : decValue bs 0 < 9223372036854775808) :
    AtoiBytes bs = (((decValue bs 0 : Nat) : Int), none) := by
  cases bs with
  | nil => exact absurd rfl hne
  | cons b bs =>
    obtain ⟨hb, _⟩ := allDigits_cons h
    have hb45 : b ≠ 45 := by omega
    have hb43 : b ≠ 43 := by omega
    by_cases hlen : 0 < (b :: bs).length ∧ (b :: bs).length < 19
    · have hf := atoiFastLoop_digits (b :: bs) 0 h
      simp only [Nat.cast_zero] at hf
      simp only [AtoiBytes, hlen, and_self, if_true, hb45, hb43, or_self, decide_False,
        Bool.false_eq_true, false_and, if_false, hf]
    · have hp := ParseUint_digits (b :: bs) h hne (by omega)
      have hcut : 2 ^ (intSize - 1) = 9223372036854775808 := by decide
      have hnot : ¬ (decValue (b :: bs) 0 ≥ 9223372036854775808) := by omega
      have hto : toInt64 (decValue (b :: bs) 0) = ((decValue (b :: bs) 0 : Nat) : Int) := by
        have e : decValue (b :: bs) 0 % 2 ^ 64 = decValue (b :: bs) 0 := by
          apply Nat.mod_eq_of_lt; norm_num; omega
        have e2 : decValue (b :: bs) 0 < 2 ^ 63 := by norm_num; omega
        simp only [toInt64, e, e2, if_true]
      simp only [AtoiBytes, hlen, if_false, ParseInt, hb45, hb43, or_self, decide_False, hp, hcut,
        hnot, and_false, Bool.false_eq_true, false_and, hto]

theorem AtoiBytes_minus_digits (bs : List Nat) (h : AllDigits bs) (hne : bs ≠ [])
    (hv : decValue bs 0 ≤ 9223372036854775808) :
    AtoiBytes (45 :: bs) = (-((decValue bs 0 : Nat) : Int), none) := by
  by_cases hlen : 0 < (45 :: bs).length ∧ (45 :: bs).length < 19
  · have hf := atoiFastLoop_digits bs 0 h
    simp only [Nat.cast_zero] at hf
    have hl : ¬ (bs.length < 1) := by
      cases bs with
      | nil => exact absurd rfl hne
      | cons b bs => simp
    simp only [AtoiBytes, hlen, and_self, if_true, true_or, decide_True, hl, and_false, if_false, hf]
  · have hp := ParseUint_digits bs h hne (by omega)
    have hcut : 2 ^ (intSize - 1) = 9223372036854775808 := by decide
    have hnot : ¬ (decValue bs 0 > 9223372036854775808) := by omega
    have hneg : negInt64 (toInt64 (decValue bs 0)) = -((decValue bs 0 : Nat) : Int) := by
      have e : decValue bs 0 % 2 ^ 64 = decValue bs 0 := by
        apply Nat.mod_eq_of_lt; norm_num; omega
      simp only [toInt64, e]
      by_cases hlt : decValue bs 0 < 9223372036854775808
      · have e2 : decValue bs 0 < 2 ^ 63 := by norm_num; omega
        have e3 : ¬ (((decValue bs 0 : Nat) : Int) = -(2 ^ 63)) := by
          have : (0 : Int) ≤ ((decValue bs 0 : Nat) : Int) := Int.ofNat_nonneg _
          norm_num; omega
        simp only [e2, if_true, negInt64, e3, if_false]
      · have e4 : decValue bs 0 = 9223372036854775808 := by omega
        rw [e4]
        decide
    simp only [AtoiBytes, hlen, if_false, ParseInt, or_true, decide_True, if_true, hp, hcut,
      hnot, and_false, Bool.true_eq_false, false_and, hneg]

theorem utf8Bytes_digitChar (d : Nat) (h : d < 10) : utf8Bytes (Nat.digitChar d) = [48 + d] := by
  interval_cases d <;> rfl

theorem bytesOf_append (xs ys : List Char) : bytesOf (xs ++ ys) = bytesOf xs ++ bytesOf ys := by
  induction xs with
  | nil => rfl
  | cons c cs ih => simp [bytesOf, ih]

theorem toDigitsCore_bytes (fuel : Nat) : ∀ (n : Nat) (ds : List Char), n < fuel →
    ∃ pre : List Nat, bytesOf (Nat.toDigitsCore 10 fuel n ds) = pre ++ bytesOf ds ∧
      AllDigits pre ∧ pre ≠ [] ∧ ∀ acc, decValue pre acc = acc * 10 ^ pre.length + n := by
  induction fuel with
  | zero => intro n ds h; omega
  | succ fuel ih =>
    intro n ds h
    have hd : n % 10 < 10 := Nat.mod_lt _ (by decide)
    by_cases h0 : n / 10 = 0
    · refine ⟨[48 + n % 10], ?_, ?_, by simp, ?_⟩
      · simp [Nat.toDigitsCore, h0, bytesOf, utf8Bytes_digitChar _ hd]
      · intro b hb
        simp only [List.mem_singleton] at hb
        omega
      · intro acc
        simp only [decValue, List.length_singleton, pow_one]
        omega
    · obtain ⟨pre, hpre, hall, _, hval⟩ := ih (n / 10) (Nat.digitChar (n % 10) :: ds) (by omega)
      refine ⟨pre ++ [48 + n % 10], ?_, ?_, by simp, ?_⟩
      · simp only [Nat.toDigitsCore, h0, if_false, hpre, bytesOf, utf8Bytes_digitChar _ hd]
        simp
      · intro b hb
        rcases List.mem_append.1 hb with hb | hb
        · exact hall b hb
        · simp only [List.mem_singleton] at hb
          omega
      · intro acc
        rw [decValue_append, hval]
        simp only [decValue, List.length_append, List.length_singleton, pow_succ]
        have : 48 + n % 10 - 48 = n % 10 := by omega
        rw [this]
        have hn : n = n / 10 * 10 + n % 10 := by omega
        generalize 10 ^ pre.length = k
        nth_rewrite 3 [hn]
        ring

theorem goBytes_natRepr (n : Nat) :
    ∃ pre : List Nat, goBytes (toString n) = pre ∧ AllDigits pre ∧ pre ≠ [] ∧
      decValue pre 0 = n := by
  obtain ⟨pre, hpre, hall, hne, hval⟩ := toDigitsCore_bytes (n + 1) n [] (by omega)
  refine ⟨pre, ?_, hall, hne, ?_⟩
  · have : (toString n).toList = Nat.toDigitsCore 10 (n + 1) n [] := rfl
    simp only [goBytes, this, hpre, bytesOf, List.append_nil]
  · simpa using hval 0

theorem goBytes_append (s t : String) : goBytes (s ++ t) = goBytes s ++ goBytes t := by
  simp [goBytes, String.toList, bytesOf_append]

/-- On the decimal numeral of an integer that fits `int`, `Atoi` returns that
integer and no error. -/
theorem Atoi_toString (n : Int) (hlo : -9223372036854775808 ≤ n) (hhi : n < 9223372036854775808) :
    Atoi (toString n) = (n, none) := by
  cases n with
  | ofNat m =>
    obtain ⟨pre, hpre, hall, hne, hval⟩ := goBytes_natRepr m
    have e : toString (Int.ofNat m) = toString m := rfl
    have hm : m < 9223372036854775808 := by
      have : ((m : Nat) : Int) < 9223372036854775808 := hhi
      omega
    rw [Atoi, e, hpre, AtoiBytes_digits pre hall hne (by omega), hval]
    rfl
  | negSucc k =>
    obtain ⟨pre, hpre, hall, hne, hval⟩ := goBytes_natRepr (k + 1)
    have e : toString (Int.negSucc k) = "-" ++ toString (k + 1) := rfl
    have hm : k + 1 ≤ 9223372036854775808 := by
      have h1 : -9223372036854775808 ≤ Int.negSucc k := hlo
      rw [Int.negSucc_eq] at h1
      omega
    have hminus : goBytes "-" = [45] := by decide
    rw [Atoi, e, goBytes_append, hminus, hpre]
    simp only [List.singleton_append]
    rw [AtoiBytes_minus_digits pre hall hne (by omega), hval]
    rfl

/-- Every syntax-error return of `Atoi` carries the value `0`. -/
theorem AtoiBytes_syntax (s : List Nat) (h : (AtoiBytes s).2 = some NumError.ErrSyntax) :
    (AtoiBytes s).1 = 0 := by
  revert h
  unfold AtoiBytes ParseInt
  dsimp only
  repeat' split
  all_goals simp

/-- Every range-error return of `Atoi` carries the nearest bound of `int`. -/
theorem AtoiBytes_range (s : List Nat) (h : (AtoiBytes s).2 = some NumError.ErrRange) :
    (AtoiBytes s).1 = if s.head? = some 45 then -9223372036854775808 else 9223372036854775807 := by
  have hcut : 2 ^ (intSize - 1) = 9223372036854775808 := by decide
  revert h
  unfold AtoiBytes ParseInt
  dsimp only
  rw [hcut]
  repeat' split
  all_goals simp_all

/-! ## Lemmas on Go maps -/

theorem index_of_not_hasKey {α : Type} (m : GoMap α) (k : String) (zero : α)
    (h : m.hasKey k = false) : m.index k zero = zero := by
  unfold GoMap.hasKey at h
  unfold GoMap.index
  have : m.entries.find? (fun e => e.1 == k) = none := by
    rw [List.find?_eq_none]
    intro e he hk
    have : m.entries.any (fun e => e.1 == k) = true := List.any_eq_true.2 ⟨e, he, hk⟩
    simp [h] at this
  rw [this]

theorem find_of_mem_nodup {α : Type} (es : List (String × α)) (k : String) (v : α)
    (hnd : (es.map Prod.fst).Nodup) (hmem : (k, v) ∈ es) :
    es.find? (fun e => e.1 == k) = some (k, v) := by
  induction es with
  | nil => simp at hmem
  | cons e es ih =>
    simp only [List.map_cons, List.nodup_cons] at hnd
    rcases List.mem_cons.1 hmem with h | h
    · subst h
      simp
    · have hne : e.1 ≠ k := by
        intro hk
        apply hnd.1
        rw [hk]
        exact List.mem_map.2 ⟨(k, v), h, rfl⟩
      have hb : (e.1 == k) = false := by simpa using hne
      rw [List.find?_cons, hb]
      exact ih hnd.2 h

theorem index_of_mem {α : Type} (m : GoMap α) (k : String) (v zero : α)
    (hnd : (m.entries.map Prod.fst).Nodup) (hmem : (k, v) ∈ m.entries) :
    m.index k zero = v := by
  unfold GoMap.index
  rw [find_of_mem_nodup m.entries k v hnd hmem]

theorem readsAttr_attr (p : Product) (key : String)
    (hmap : (p.Attributes.entries.map Prod.fst).Nodup) : ReadsAttr p key (attr p key) :=
  ⟨fun v hv => index_of_mem p.Attributes key v "" hmap hv,
   fun h => index_of_not_hasKey p.Attributes key "" h⟩

/-! ## Lemmas on tables -/

section TableLemmas

variable {α : Type} (keyOf : α → String) (withID : α → Nat → α)

theorem structCond_of_ne {key rowKey : String} (h : key ≠ "") :
    structCond key rowKey = true ↔ rowKey = key := by
  simp [structCond, h]

theorem covered_iff_of_ne (t : Table α) {key : String} (h : key ≠ "") :
    t.Covered keyOf key ↔ key ∈ t.rows.map keyOf := by
  constructor
  · rintro ⟨row, hrow, hc⟩
    exact List.mem_map.2 ⟨row, hrow, (structCond_of_ne h).1 hc⟩
  · intro hk
    obtain ⟨row, hrow, hk⟩ := List.mem_map.1 hk
    exact ⟨row, hrow, (structCond_of_ne h).2 hk⟩

theorem find_some_of_covered (t : Table α) (key : String) (h : t.Covered keyOf key) :
    ∃ row, t.rows.find? (fun row => structCond key (keyOf row)) = some row := by
  obtain ⟨row, hrow, hc⟩ := h
  cases hf : t.rows.find? (fun row => structCond key (keyOf row)) with
  | some r => exact ⟨r, rfl⟩
  | none =>
    rw [List.find?_eq_none] at hf
    exact absurd hc (hf row hrow)

theorem firstOrCreate_unchanged (t : Table α) (dest : α) (h : t.Covered keyOf (keyOf dest)) :
    (t.firstOrCreate keyOf withID dest).1 = t := by
  obtain ⟨row, hrow⟩ := find_some_of_covered keyOf t (keyOf dest) h
  simp [Table.firstOrCreate, hrow]

theorem firstOrCreate_rows (t : Table α) (dest : α) :
    (t.firstOrCreate keyOf withID dest).1 = t ∨
      (¬ t.Covered keyOf (keyOf dest) ∧
        (t.firstOrCreate keyOf withID dest).1 =
          { rows := t.rows ++ [withID dest (t.seq + 1)], seq := t.seq + 1 }) := by
  cases hf : t.rows.find? (fun row => structCond (keyOf dest) (keyOf row)) with
  | some r => left; simp [Table.firstOrCreate, hf]
  | none =>
    right
    refine ⟨?_, by simp [Table.firstOrCreate, hf]⟩
    rintro ⟨row, hrow, hc⟩
    rw [List.find?_eq_none] at hf
    exact absurd hc (hf row hrow)

theorem firstOrCreate_mono (t : Table α) (dest : α) (row : α) (h : row ∈ t.rows) :
    row ∈ (t.firstOrCreate keyOf withID dest).1.rows := by
  rcases firstOrCreate_rows keyOf withID t dest with e | ⟨_, e⟩
  · rw [e]; exact h
  · rw [e]; exact List.mem_append_left _ h

theorem covered_mono {t t2 : Table α} (h : ∀ row ∈ t.rows, row ∈ t2.rows) {key : String}
    (hc : t.Covered keyOf key) : t2.Covered keyOf key := by
  obtain ⟨row, hrow, hk⟩ := hc
  exact ⟨row, h row hrow, hk⟩

theorem structCond_self (key : String) : structCond key key = true := by
  simp [structCond]

theorem firstOrCreate_covered (hkey : ∀ x i, keyOf (withID x i) = keyOf x) (t : Table α)
    (dest : α) : (t.firstOrCreate keyOf withID dest).1.Covered keyOf (keyOf dest) := by
  cases hf : t.rows.find? (fun row => structCond (keyOf dest) (keyOf row)) with
  | some r =>
    have hr := List.find?_some hf
    have hm := List.mem_of_find?_eq_some hf
    simp only [Table.firstOrCreate, hf]
    exact ⟨r, hm, hr⟩
  | none =>
    simp only [Table.firstOrCreate, hf]
    refine ⟨withID dest (t.seq + 1), by simp, ?_⟩
    rw [hkey]
    exact structCond_self _

theorem firstOrCreate_origin (hkey : ∀ x i, keyOf (withID x i) = keyOf x) (t : Table α)
    (dest : α) (row : α) (h : row ∈ (t.firstOrCreate keyOf withID dest).1.rows) :
    row ∈ t.rows ∨ keyOf row = keyOf dest := by
  rcases firstOrCreate_rows keyOf withID t dest with e | ⟨_, e⟩
  · rw [e] at h; exact Or.inl h
  · rw [e] at h
    rcases List.mem_append.1 h with h | h
    · exact Or.inl h
    · right
      simp only [List.mem_singleton] at h
      rw [h, hkey]

theorem firstOrCreate_nodup (hkey : ∀ x i, keyOf (withID x i) = keyOf x) (t : Table α)
    (dest : α) (h : (t.rows.map keyOf).Nodup) :
    ((t.firstOrCreate keyOf withID dest).1.rows.map keyOf).Nodup := by
  rcases firstOrCreate_rows keyOf withID t dest with e | ⟨hnc, e⟩
  · rw [e]; exact h
  · rw [e]
    simp only [List.map_append, List.map_cons, List.map_nil, hkey]
    rw [List.nodup_append]
    refine ⟨h, by simp, ?_⟩
    intro k hk hk2
    simp only [List.mem_singleton] at hk2
    subst hk2
    apply hnc
    obtain ⟨row, hrow, hrk⟩ := List.mem_map.1 hk
    refine ⟨row, hrow, ?_⟩
    rw [hrk]
    exact structCond_self _

end TableLemmas

/-! ## Lemmas on the SKU upsert and `processProducts` -/

theorem firstOrCreateSKU_log (f : Faults) (db : DB) (dest : SKU) :
    (firstOrCreateSKU f db dest).1.log =
      db.log ++ [⟨Call.firstOrCreateSKU dest, f db.log.length⟩] := by
  unfold firstOrCreateSKU
  split <;> simp_all [DB.record]

theorem firstOrCreateSKU_skus (f : Faults) (db : DB) (dest : SKU) :
    (firstOrCreateSKU f db dest).1.skus =
      if f db.log.length = true then db.skus
      else (db.skus.firstOrCreate (fun x : SKU => x.SKUCode) SKU.setID dest).1 := by
  unfold firstOrCreateSKU
  split <;> simp_all [DB.record]

theorem firstOrCreateSKU_frame (f : Faults) (db : DB) (dest : SKU) :
    (firstOrCreateSKU f db dest).1.providers = db.providers ∧
    (firstOrCreateSKU f db dest).1.services = db.services ∧
    (firstOrCreateSKU f db dest).1.regions = db.regions ∧
    (firstOrCreateSKU f db dest).1.terms = db.terms := by
  unfold firstOrCreateSKU
  split <;> simp_all [DB.record]

theorem processProducts_log (f : Faults) (products : List Product) (regionID : Nat) (db : DB) :
    (processProducts f db products regionID).log =
      db.log ++ (List.enumFrom db.log.length products).map
        (fun ip => ⟨Call.firstOrCreateSKU (buildSKU ip.2 regionID), f ip.1⟩) := by
  induction products generalizing db with
  | nil => simp [processProducts]
  | cons p ps ih =>
    rw [processProducts, ih, firstOrCreateSKU_log]
    simp [List.enumFrom]

theorem processProducts_frame (f : Faults) (products : List Product) (regionID : Nat) (db : DB) :
    (processProducts f db products regionID).providers = db.providers ∧
    (processProducts f db products regionID).services = db.services ∧
    (processProducts f db products regionID).regions = db.regions ∧
    (processProducts f db products regionID).terms = db.terms := by
  induction products generalizing db with
  | nil => simp [processProducts]
  | cons p ps ih =>
    rw [processProducts]
    obtain ⟨h1, h2, h3, h4⟩ := ih (firstOrCreateSKU f db (buildSKU p regionID)).1
    obtain ⟨g1, g2, g3, g4⟩ := firstOrCreateSKU_frame f db (buildSKU p regionID)
    exact ⟨h1.trans g1, h2.trans g2, h3.trans g3, h4.trans g4⟩

theorem firstOrCreateSKU_mono (f : Faults) (db : DB) (dest : SKU) (row : SKU)
    (h : row ∈ db.skus.rows) : row ∈ (firstOrCreateSKU f db dest).1.skus.rows := by
  rw [firstOrCreateSKU_skus]
  split
  · exact h
  · exact firstOrCreate_mono (fun x : SKU => x.SKUCode) SKU.setID _ _ _ h

theorem processProducts_mono (f : Faults) (products : List Product) (regionID : Nat) (db : DB)
    (row : SKU) (h : row ∈ db.skus.rows) :
    row ∈ (processProducts f db products regionID).skus.rows := by
  induction products generalizing db with
  | nil => simpa [processProducts] using h
  | cons p ps ih =>
    rw [processProducts]
    exact ih _ (firstOrCreateSKU_mono f db _ row h)

theorem processProducts_nodup (f : Faults) (products : List Product) (regionID : Nat) (db : DB)
    (h : (db.skus.rows.map (fun x => x.SKUCode)).Nodup) :
    ((processProducts f db products regionID).skus.rows.map (fun x => x.SKUCode)).Nodup := by
  induction products generalizing db with
  | nil => simpa [processProducts] using h
  | cons p ps ih =>
    rw [processProducts]
    apply ih
    rw [firstOrCreateSKU_skus]
    split
    · exact h
    · exact firstOrCreate_nodup (fun x : SKU => x.SKUCode) SKU.setID (fun _ _ => rfl) _ _ h

theorem processProducts_origin (f : Faults) (products : List Product) (regionID : Nat) (db : DB)
    (row : SKU) (h : row ∈ (processProducts f db products regionID).skus.rows) :
    row ∈ db.skus.rows ∨ row.SKUCode ∈ products.map (fun p => p.SKU) := by
  induction products generalizing db with
  | nil => left; simpa [processProducts] using h
  | cons p ps ih =>
    rw [processProducts] at h
    rcases ih _ h with h1 | h1
    · rw [firstOrCreateSKU_skus] at h1
      split at h1
      · exact Or.inl h1
      · rcases firstOrCreate_origin (fun x : SKU => x.SKUCode) SKU.setID (fun _ _ => rfl) _ _ _ h1 with h2 | h2
        · exact Or.inl h2
        · right
          simp only [List.map_cons, List.mem_cons]
          left
          exact h2
    · right
      simp only [List.map_cons, List.mem_cons]
      exact Or.inr h1

theorem processProducts_covered (f : Faults) (products : List Product) (regionID : Nat) (db : DB)
    (i : Nat) (p : Product) (hip : (i, p) ∈ List.enumFrom db.log.length products)
    (hf : f i = false) :
    (processProducts f db products regionID).skus.Covered (fun x => x.SKUCode) p.SKU := by
  induction products generalizing db with
  | nil => simp at hip
  | cons q qs ih =>
    rw [processProducts]
    simp only [List.enumFrom, List.mem_cons, Prod.mk.injEq] at hip
    rcases hip with ⟨hi, hp⟩ | hip
    · subst hi; subst hp
      apply covered_mono (fun x => x.SKUCode)
        (processProducts_mono f qs regionID (firstOrCreateSKU f db (buildSKU p regionID)).1)
      rw [firstOrCreateSKU_skus, hf]
      simp only [Bool.false_eq_true, if_false]
      exact firstOrCreate_covered (fun x : SKU => x.SKUCode) SKU.setID (fun _ _ => rfl) db.skus
        (buildSKU p regionID)
    · apply ih
      rw [firstOrCreateSKU_log]
      simpa using hip

theorem processProducts_unchanged (f : Faults) (products : List Product) (regionID : Nat)
    (db : DB) (h : ∀ p ∈ products, db.skus.Covered (fun x => x.SKUCode) p.SKU) :
    (processProducts f db products regionID).skus = db.skus := by
  induction products generalizing db with
  | nil => simp [processProducts]
  | cons p ps ih =>
    have e : (firstOrCreateSKU f db (buildSKU p regionID)).1.skus = db.skus := by
      rw [firstOrCreateSKU_skus]
      split
      · rfl
      · exact firstOrCreate_unchanged (fun x : SKU => x.SKUCode) SKU.setID db.skus
          (buildSKU p regionID) (h p (List.mem_cons_self _ _))
    rw [processProducts, ih, e]
    intro q hq
    rw [e]
    exact h q (List.mem_cons_of_mem _ hq)

/-! ## Lemmas on `processTerms` -/

theorem processTermData_eq_list (f : Faults) (skuCode : String) (es : List (String × TermDetails))
    (db : DB) :
    processTermData f db skuCode es = processTermList f db (es.map (fun e => (skuCode, e.2))) := by
  induction es generalizing db with
  | nil => rfl
  | cons e es ih => simp [processTermData, processTermList, ih]

theorem processTermList_append (f : Faults) (xs ys : List (String × TermDetails)) (db : DB) :
    processTermList f db (xs ++ ys) = processTermList f (processTermList f db xs) ys := by
  induction xs generalizing db with
  | nil => rfl
  | cons e es ih => simp [processTermList, ih]

theorem processTermGroups_eq_list (f : Faults) (gs : List (String × GoMap TermDetails)) (db : DB) :
    processTermGroups f db gs = processTermList f db (flattenGroups gs) := by
  induction gs generalizing db with
  | nil => rfl
  | cons g gs ih =>
    simp [processTermGroups, flattenGroups, processTermList_append, ih, processTermData_eq_list]

theorem processTerms_eq_list (f : Faults) (db : DB) (terms : GoMap (GoMap TermDetails)) :
    processTerms f db terms = processTermList f db (termEntries terms) :=
  processTermGroups_eq_list f terms.entries db

theorem scanSKUID_ok (f : Faults) (db : DB) (skuCode : String) (h : f db.log.length = false) :
    scanSKUID f db skuCode =
      (db.record (Call.scanSKUID skuCode) false, lookupSKUID db skuCode, false) := by
  simp [scanSKUID, h]

theorem scanSKUID_fail (f : Faults) (db : DB) (skuCode : String) (h : f db.log.length = true) :
    scanSKUID f db skuCode = (db.record (Call.scanSKUID skuCode) true, none, true) := by
  simp [scanSKUID, h]

theorem createTerm_ok (f : Faults) (db : DB) (t : Term) (h : f db.log.length = false) :
    createTerm f db t =
      ({ db with
          terms :=
            { rows := db.terms.rows ++ [{ t with OfferTermID := ((db.terms.seq + 1 : Nat) : Int) }],
              seq := db.terms.seq + 1 } }.record (Call.createTerm t) false, false) := by
  simp [createTerm, h]

theorem createTerm_fail (f : Faults) (db : DB) (t : Term) (h : f db.log.length = true) :
    createTerm f db t = (db.record (Call.createTerm t) true, true) := by
  simp [createTerm, h]

/-- The three outcomes of one pass through the inner-loop body. -/
theorem processTermEntry_eq (f : Faults) (db : DB) (skuCode : String) (d : TermDetails) :
    processTermEntry f db skuCode d =
      if f db.log.length = true then db.record (Call.scanSKUID skuCode) true
      else if f (db.log.length + 1) = true then
        (db.record (Call.scanSKUID skuCode) false).record
          (Call.createTerm (buildTerm (resolveSKUID db skuCode) d)) true
      else
        { db with
          terms :=
            { rows := db.terms.rows ++
                [{ buildTerm (resolveSKUID db skuCode) d with
                   OfferTermID := ((db.terms.seq + 1 : Nat) : Int) }],
              seq := db.terms.seq + 1 }
          log := db.log ++ [⟨Call.scanSKUID skuCode, false⟩,
            ⟨Call.createTerm (buildTerm (resolveSKUID db skuCode) d), false⟩] } := by
  have hres : (match lookupSKUID db skuCode with
      | some id => (id : Int)
      | none => 0) = resolveSKUID db skuCode := rfl
  cases h0 : f db.log.length with
  | true => simp [processTermEntry, scanSKUID_fail f db skuCode h0]
  | false =>
    have hlen : (db.record (Call.scanSKUID skuCode) false).log.length = db.log.length + 1 := by
      simp [DB.record]
    cases h1 : f (db.log.length + 1) with
    | true =>
      have h1b : f (db.record (Call.scanSKUID skuCode) false).log.length = true := by
        rw [hlen]; exact h1
      simp [processTermEntry, scanSKUID_ok f db skuCode h0, createTerm_fail f _ _ h1b, hres]
    | false =>
      have h1b : f (db.record (Call.scanSKUID skuCode) false).log.length = false := by
        rw [hlen]; exact h1
      simp only [processTermEntry, scanSKUID_ok f db skuCode h0, createTerm_ok f _ _ h1b, hres,
        Bool.false_eq_true, if_false]
      simp [DB.record]

theorem processTermEntry_frame (f : Faults) (db : DB) (skuCode : String) (d : TermDetails) :
    (processTermEntry f db skuCode d).providers = db.providers ∧
    (processTermEntry f db skuCode d).services = db.services ∧
    (processTermEntry f db skuCode d).regions = db.regions ∧
    (processTermEntry f db skuCode d).skus = db.skus := by
  rw [processTermEntry_eq]
  split
  · simp [DB.record]
  · split <;> simp [DB.record]

theorem processTermList_frame (f : Faults) (es : List (String × TermDetails)) (db : DB) :
    (processTermList f db es).providers = db.providers ∧
    (processTermList f db es).services = db.services ∧
    (processTermList f db es).regions = db.regions ∧
    (processTermList f db es).skus = db.skus := by
  induction es generalizing db with
  | nil => simp [processTermList]
  | cons e es ih =>
    rw [processTermList]
    obtain ⟨h1, h2, h3, h4⟩ := ih (processTermEntry f db e.1 e.2)
    obtain ⟨g1, g2, g3, g4⟩ := processTermEntry_frame f db e.1 e.2
    exact ⟨h1.trans g1, h2.trans g2, h3.trans g3, h4.trans g4⟩

theorem resolveSKUID_congr (db db2 : DB) (h : db2.skus = db.skus) (k : String) :
    resolveSKUID db2 k = resolveSKUID db k := by
  simp [resolveSKUID, lookupSKUID, h]

theorem createdTerms_append (xs ys : List Received) :
    createdTerms (xs ++ ys) = createdTerms xs ++ createdTerms ys := by
  induction xs with
  | nil => rfl
  | cons r rs ih =>
    simp only [List.cons_append, createdTerms]
    split <;> simp [ih]

theorem processTermEntry_created (f : Faults) (db : DB) (skuCode : String) (d : TermDetails) :
    createdTerms (processTermEntry f db skuCode d).log = createdTerms db.log ∨
    createdTerms (processTermEntry f db skuCode d).log =
      createdTerms db.log ++ [buildTerm (resolveSKUID db skuCode) d] := by
  rw [processTermEntry_eq]
  split
  · left; simp [DB.record, createdTerms_append, createdTerms]
  · right
    split <;> simp [DB.record, createdTerms_append, createdTerms]

theorem processTermEntry_rows (f : Faults) (db : DB) (skuCode : String) (d : TermDetails) :
    (processTermEntry f db skuCode d).terms.rows.length ≤ db.terms.rows.length + 1 := by
  rw [processTermEntry_eq]
  split
  · simp [DB.record]
  · split <;> simp [DB.record]

theorem processTermList_created (f : Faults) (es : List (String × TermDetails)) (db : DB) :
    ∃ l : List Term, createdTerms (processTermList f db es).log = createdTerms db.log ++ l ∧
      l.Sublist (es.map (fun e => buildTerm (resolveSKUID db e.1) e.2)) := by
  induction es generalizing db with
  | nil => exact ⟨[], by simp [processTermList], by simp⟩
  | cons e es ih =>
    obtain ⟨l, hl, hsub⟩ := ih (processTermEntry f db e.1 e.2)
    have hsk : (processTermEntry f db e.1 e.2).skus = db.skus :=
      (processTermEntry_frame f db e.1 e.2).2.2.2
    have hmap : es.map (fun x => buildTerm (resolveSKUID (processTermEntry f db e.1 e.2) x.1) x.2)
        = es.map (fun x => buildTerm (resolveSKUID db x.1) x.2) := by
      apply List.map_congr_left
      intro x _
      rw [resolveSKUID_congr db _ hsk]
    rw [hmap] at hsub
    rcases processTermEntry_created f db e.1 e.2 with h | h
    · refine ⟨l, ?_, ?_⟩
      · rw [processTermList, hl, h]
      · simp only [List.map_cons]
        exact List.Sublist.cons _ hsub
    · refine ⟨buildTerm (resolveSKUID db e.1) e.2 :: l, ?_, ?_⟩
      · rw [processTermList, hl, h]
        simp
      · simp only [List.map_cons]
        exact List.Sublist.cons₂ _ hsub

theorem processTermList_rows (f : Faults) (es : List (String × TermDetails)) (db : DB) :
    (processTermList f db es).terms.rows.length ≤ db.terms.rows.length + es.length := by
  induction es generalizing db with
  | nil => simp [processTermList]
  | cons e es ih =>
    have h1 := ih (processTermEntry f db e.1 e.2)
    have h2 := processTermEntry_rows f db e.1 e.2
    rw [processTermList]
    simp only [List.length_cons]
    omega

theorem processTermList_noFaults (es : List (String × TermDetails)) (db : DB) :
    (processTermList noFaults db es).terms.rows.map Term.withoutID =
      db.terms.rows.map Term.withoutID ++ es.map (fun e => buildTerm (resolveSKUID db e.1) e.2) := by
  induction es generalizing db with
  | nil => simp [processTermList]
  | cons e es ih =>
    have hsk : (processTermEntry noFaults db e.1 e.2).skus = db.skus :=
      (processTermEntry_frame noFaults db e.1 e.2).2.2.2
    have hmap : es.map
          (fun x => buildTerm (resolveSKUID (processTermEntry noFaults db e.1 e.2) x.1) x.2)
        = es.map (fun x => buildTerm (resolveSKUID db x.1) x.2) := by
      apply List.map_congr_left
      intro x _
      rw [resolveSKUID_congr db _ hsk]
    rw [processTermList, ih, hmap, processTermEntry_eq]
    simp [noFaults, Term.withoutID, buildTerm]

theorem mem_flattenGroups (gs : List (String × GoMap TermDetails)) (k : String) (d : TermDetails) :
    (k, d) ∈ flattenGroups gs ↔ ∃ g key, (k, g) ∈ gs ∧ (key, d) ∈ g.entries := by
  induction gs with
  | nil => simp [flattenGroups]
  | cons g gs ih =>
    simp only [flattenGroups, List.mem_append, List.mem_map, Prod.mk.injEq, ih, List.mem_cons]
    constructor
    · rintro (⟨e, he, hk, hd⟩ | ⟨g2, key, hg, hkey⟩)
      · refine ⟨g.2, e.1, Or.inl ?_, ?_⟩
        · rw [← hk]
        · rw [← hd]; exact he
      · exact ⟨g2, key, Or.inr hg, hkey⟩
    · rintro ⟨g2, key, hg | hg, hkey⟩
      · left
        refine ⟨(key, d), ?_, ?_, rfl⟩
        · rw [← hg]; exact hkey
        · rw [← hg]
      · exact Or.inr ⟨g2, key, hg, hkey⟩

/-! ## Lemmas on `processCurrentVersionFile` and the region loop -/

theorem processCurrentVersionFile_frame (f : Faults) (db : DB) (data : PricingData) (r : Nat) :
    (processCurrentVersionFile f db data r).providers = db.providers ∧
    (processCurrentVersionFile f db data r).services = db.services ∧
    (processCurrentVersionFile f db data r).regions = db.regions ∧
    (processCurrentVersionFile f db data r).skus =
      (processProducts f db (mapToSlice data.Products) r).skus := by
  unfold processCurrentVersionFile
  simp only []
  rw [processTerms_eq_list]
  obtain ⟨h1, h2, h3, h4⟩ := processTermList_frame f
    (termEntries (data.Terms.index "OnDemand" GoMap.nil))
    (processProducts f db (mapToSlice data.Products) r)
  obtain ⟨g1, g2, g3, _⟩ := processProducts_frame f (mapToSlice data.Products) r db
  exact ⟨h1.trans g1, h2.trans g2, h3.trans g3, h4⟩

theorem firstOrCreateRegion_regions (f : Faults) (db : DB) (dest : Region) :
    (firstOrCreateRegion f db dest).1.regions =
      if f db.log.length = true then db.regions
      else (db.regions.firstOrCreate (fun x => x.RegionCode) Region.setID dest).1 := by
  unfold firstOrCreateRegion
  split <;> simp_all [DB.record]

theorem firstOrCreateRegion_frame (f : Faults) (db : DB) (dest : Region) :
    (firstOrCreateRegion f db dest).1.providers = db.providers ∧
    (firstOrCreateRegion f db dest).1.services = db.services ∧
    (firstOrCreateRegion f db dest).1.skus = db.skus := by
  unfold firstOrCreateRegion
  split <;> simp_all [DB.record]

/-- What one iteration of the region loop does to the four keyed tables. -/
theorem processRegions_cons (f : Faults) (fetch : RegionInfo → Download) (sid : Nat) (db : DB)
    (e : String × RegionInfo) (rest : List (String × RegionInfo)) :
    ∃ mid : DB,
      mid.providers = db.providers ∧ mid.services = db.services ∧
      mid.regions = (firstOrCreateRegion f db
        { ID := 0, RegionCode := e.2.RegionCode, ServiceID := sid }).1.regions ∧
      (∃ (start : DB) (r : Nat) (ps : List Product),
        start.skus = db.skus ∧ mid.skus = (processProducts f start ps r).skus ∧
        ps.map (fun p => p.SKU) = docSKUCodes fetch e.2) ∧
      (processRegions f fetch sid db (e :: rest) = processRegions f fetch sid mid rest ∨
        (fetch e.2 = Download.undecodable ∧ processRegions f fetch sid db (e :: rest) = mid)) := by
  obtain ⟨g1, g2, g3⟩ := firstOrCreateRegion_frame f db
    { ID := 0, RegionCode := e.2.RegionCode, ServiceID := sid }
  cases hfe : fetch e.2 with
  | failed =>
    refine ⟨(firstOrCreateRegion f db
      { ID := 0, RegionCode := e.2.RegionCode, ServiceID := sid }).1, g1, g2, rfl,
      ⟨_, 0, [], g3, by simp [processProducts], by simp [docSKUCodes, hfe]⟩, ?_⟩
    left
    simp [processRegions, hfe]
  | undecodable =>
    refine ⟨(firstOrCreateRegion f db
      { ID := 0, RegionCode := e.2.RegionCode, ServiceID := sid }).1, g1, g2, rfl,
      ⟨_, 0, [], g3, by simp [processProducts], by simp [docSKUCodes, hfe]⟩, ?_⟩
    right
    simp [processRegions, hfe]
  | decoded data =>
    obtain ⟨h1, h2, h3, h4⟩ := processCurrentVersionFile_frame f
      (firstOrCreateRegion f db { ID := 0, RegionCode := e.2.RegionCode, ServiceID := sid }).1
      data
      (firstOrCreateRegion f db { ID := 0, RegionCode := e.2.RegionCode, ServiceID := sid }).2.1.ID
    refine ⟨_, h1.trans g1, h2.trans g2, h3, ⟨_, _, mapToSlice data.Products, g3, h4,
      by simp [docSKUCodes, hfe]⟩, ?_⟩
    left
    simp [processRegions, hfe]

theorem processRegions_frame (f : Faults) (fetch : RegionInfo → Download) (sid : Nat)
    (rs : List (String × RegionInfo)) (db : DB) :
    (processRegions f fetch sid db rs).providers = db.providers ∧
    (processRegions f fetch sid db rs).services = db.services := by
  induction rs generalizing db with
  | nil => simp [processRegions]
  | cons e rest ih =>
    obtain ⟨mid, h1, h2, _, _, hstep | ⟨_, hstep⟩⟩ := processRegions_cons f fetch sid db e rest
    · rw [hstep]
      exact ⟨(ih mid).1.trans h1, (ih mid).2.trans h2⟩
    · rw [hstep]
      exact ⟨h1, h2⟩

theorem processRegions_mono (f : Faults) (fetch : RegionInfo → Download) (sid : Nat)
    (rs : List (String × RegionInfo)) (db : DB) :
    (∀ row ∈ db.regions.rows, row ∈ (processRegions f fetch sid db rs).regions.rows) ∧
    (∀ row ∈ db.skus.rows, row ∈ (processRegions f fetch sid db rs).skus.rows) := by
  induction rs generalizing db with
  | nil => simp [processRegions]
  | cons e rest ih =>
    obtain ⟨mid, _, _, h3, ⟨start, r, ps, hs, hm, _⟩, hstep⟩ :=
      processRegions_cons f fetch sid db e rest
    have hreg : ∀ row ∈ db.regions.rows, row ∈ mid.regions.rows := by
      intro row hrow
      rw [h3, firstOrCreateRegion_regions]
      split
      · exact hrow
      · exact firstOrCreate_mono (fun x : Region => x.RegionCode) Region.setID _ _ _ hrow
    have hsku : ∀ row ∈ db.skus.rows, row ∈ mid.skus.rows := by
      intro row hrow
      rw [hm]
      apply processProducts_mono
      rw [hs]; exact hrow
    rcases hstep with hstep | ⟨_, hstep⟩
    · rw [hstep]
      exact ⟨fun row hrow => (ih mid).1 row (hreg row hrow),
        fun row hrow => (ih mid).2 row (hsku row hrow)⟩
    · rw [hstep]
      exact ⟨hreg, hsku⟩

theorem processRegions_nodup (f : Faults) (fetch : RegionInfo → Download) (sid : Nat)
    (rs : List (String × RegionInfo)) (db : DB)
    (hr : (db.regions.rows.map (fun x => x.RegionCode)).Nodup)
    (hs : (db.skus.rows.map (fun x => x.SKUCode)).Nodup) :
    ((processRegions f fetch sid db rs).regions.rows.map (fun x => x.RegionCode)).Nodup ∧
    ((processRegions f fetch sid db rs).skus.rows.map (fun x => x.SKUCode)).Nodup := by
  induction rs generalizing db with
  | nil => exact ⟨by simpa [processRegions] using hr, by simpa [processRegions] using hs⟩
  | cons e rest ih =>
    obtain ⟨mid, _, _, h3, ⟨start, r, ps, hst, hm, _⟩, hstep⟩ :=
      processRegions_cons f fetch sid db e rest
    have hreg : (mid.regions.rows.map (fun x => x.RegionCode)).Nodup := by
      rw [h3, firstOrCreateRegion_regions]
      split
      · exact hr
      · exact firstOrCreate_nodup (fun x : Region => x.RegionCode) Region.setID
          (fun _ _ => rfl) _ _ hr
    have hsku : (mid.skus.rows.map (fun x => x.SKUCode)).Nodup := by
      rw [hm]
      apply processProducts_nodup
      rw [hst]; exact hs
    rcases hstep with hstep | ⟨_, hstep⟩
    · rw [hstep]
      exact ih mid hreg hsku
    · rw [hstep]
      exact ⟨hreg, hsku⟩

theorem processRegions_origin (f : Faults) (fetch : RegionInfo → Download) (sid : Nat)
    (rs : List (String × RegionInfo)) (db : DB) :
    (∀ row ∈ (processRegions f fetch sid db rs).regions.rows,
      row ∈ db.regions.rows ∨ row.RegionCode ∈ rs.map (fun e => e.2.RegionCode)) ∧
    (∀ row ∈ (processRegions f fetch sid db rs).skus.rows,
      row ∈ db.skus.rows ∨ row.SKUCode ∈ skuCodesOf fetch rs) := by
  induction rs generalizing db with
  | nil => exact ⟨fun row h => Or.inl h, fun row h => Or.inl h⟩
  | cons e rest ih =>
    obtain ⟨mid, _, _, h3, ⟨start, r, ps, hst, hm, hps⟩, hstep⟩ :=
      processRegions_cons f fetch sid db e rest
    have hreg : ∀ row ∈ mid.regions.rows,
        row ∈ db.regions.rows ∨ row.RegionCode = e.2.RegionCode := by
      intro row hrow
      rw [h3, firstOrCreateRegion_regions] at hrow
      split at hrow
      · exact Or.inl hrow
      · exact firstOrCreate_origin (fun x : Region => x.RegionCode) Region.setID
          (fun _ _ => rfl) _ _ _ hrow
    have hsku : ∀ row ∈ mid.skus.rows,
        row ∈ db.skus.rows ∨ row.SKUCode ∈ docSKUCodes fetch e.2 := by
      intro row hrow
      rw [hm] at hrow
      rcases processProducts_origin f ps r start row hrow with h | h
      · left; rw [← hst]; exact h
      · right; rw [← hps]; exact h
    have hreg2 : ∀ row ∈ mid.regions.rows, row ∈ db.regions.rows ∨
        row.RegionCode ∈ (e :: rest).map (fun e => e.2.RegionCode) := by
      intro row hrow
      rcases hreg row hrow with h | h
      · exact Or.inl h
      · right; simp [h]
    have hsku2 : ∀ row ∈ mid.skus.rows, row ∈ db.skus.rows ∨
        row.SKUCode ∈ skuCodesOf fetch (e :: rest) := by
      intro row hrow
      rcases hsku row hrow with h | h
      · exact Or.inl h
      · right; simp [skuCodesOf, h]
    rcases hstep with hstep | ⟨_, hstep⟩
    · rw [hstep]
      constructor
      · intro row hrow
        rcases (ih mid).1 row hrow with h | h
        · exact hreg2 row h
        · right; simp only [List.map_cons, List.mem_cons]; exact Or.inr h
      · intro row hrow
        rcases (ih mid).2 row hrow with h | h
        · exact hsku2 row h
        · right; simp only [skuCodesOf, List.mem_append]; exact Or.inr h
    · rw [hstep]
      exact ⟨hreg2, hsku2⟩

theorem processRegions_unchanged (f : Faults) (fetch : RegionInfo → Download) (sid : Nat)
    (rs : List (String × RegionInfo)) (db : DB)
    (hr : ∀ e ∈ rs, db.regions.Covered (fun x => x.RegionCode) e.2.RegionCode)
    (hs : ∀ c ∈ skuCodesOf fetch rs, db.skus.Covered (fun x => x.SKUCode) c) :
    (processRegions f fetch sid db rs).regions = db.regions ∧
    (processRegions f fetch sid db rs).skus = db.skus := by
  induction rs generalizing db with
  | nil => simp [processRegions]
  | cons e rest ih =>
    obtain ⟨mid, _, _, h3, ⟨start, r, ps, hst, hm, hps⟩, hstep⟩ :=
      processRegions_cons f fetch sid db e rest
    have hreg : mid.regions = db.regions := by
      rw [h3, firstOrCreateRegion_regions]
      split
      · rfl
      · exact firstOrCreate_unchanged (fun x : Region => x.RegionCode) Region.setID db.regions
          { ID := 0, RegionCode := e.2.RegionCode, ServiceID := sid }
          (hr e (List.mem_cons_self _ _))
    have hsku : mid.skus = db.skus := by
      rw [hm, ← hst]
      apply processProducts_unchanged
      intro p hp
      rw [hst]
      apply hs
      simp only [skuCodesOf, List.mem_append]
      left
      rw [← hps]
      exact List.mem_map.2 ⟨p, hp, rfl⟩
    rcases hstep with hstep | ⟨_, hstep⟩
    · rw [hstep]
      have hrest := ih mid
        (fun x hx => by rw [hreg]; exact hr x (List.mem_cons_of_mem _ hx))
        (fun c hc => by
          rw [hsku]
          apply hs
          simp only [skuCodesOf, List.mem_append]
          exact Or.inr hc)
      exact ⟨hrest.1.trans hreg, hrest.2.trans hsku⟩
    · rw [hstep]
      exact ⟨hreg, hsku⟩

/-! ## Further lemmas on logs and counts -/

theorem processTermList_log_extends (f : Faults) (es : List (String × TermDetails)) (db : DB) :
    ∃ new : List Received, (processTermList f db es).log = db.log ++ new := by
  induction es generalizing db with
  | nil => exact ⟨[], by simp [processTermList]⟩
  | cons e es ih =>
    obtain ⟨new, hnew⟩ := ih (processTermEntry f db e.1 e.2)
    have hstep : ∃ one : List Received, (processTermEntry f db e.1 e.2).log = db.log ++ one := by
      rw [processTermEntry_eq]
      split
      · exact ⟨[⟨Call.scanSKUID e.1, true⟩], by simp [DB.record]⟩
      · split
        · exact ⟨[⟨Call.scanSKUID e.1, false⟩,
            ⟨Call.createTerm (buildTerm (resolveSKUID db e.1) e.2), true⟩], by simp [DB.record]⟩
        · exact ⟨_, rfl⟩
    obtain ⟨one, hone⟩ := hstep
    exact ⟨one ++ new, by rw [processTermList, hnew, hone, List.append_assoc]⟩

theorem createdTerms_upserts (f : Faults) (r : Nat) (l : List (Nat × Product)) :
    createdTerms (l.map (fun ip => (⟨Call.firstOrCreateSKU (buildSKU ip.2 r), f ip.1⟩ : Received)))
      = [] := by
  induction l with
  | nil => rfl
  | cons x xs ih => simp [createdTerms, ih]

theorem processProducts_created (f : Faults) (products : List Product) (r : Nat) (db : DB) :
    createdTerms (processProducts f db products r).log = createdTerms db.log := by
  rw [processProducts_log, createdTerms_append, createdTerms_upserts]
  simp

theorem termCount_withoutID (rows : List Term) (s : Int) (c : String) :
    termCount (rows.map Term.withoutID) s c = termCount rows s c := by
  simp only [termCount, List.countP_map]
  rfl

theorem termCount_append (xs ys : List Term) (s : Int) (c : String) :
    termCount (xs ++ ys) s c = termCount xs s c + termCount ys s c := by
  simp [termCount, List.countP_append]

theorem termCount_build (db : DB) (es : List (String × TermDetails)) (s : Int) (c : String) :
    termCount (es.map (fun e => buildTerm (resolveSKUID db e.1) e.2)) s c =
      es.countP (fun e => resolveSKUID db e.1 == s && e.2.OfferTermCode == c) := by
  simp only [termCount, List.countP_map]
  rfl

theorem foldl_append_snd (es : List (String × Product)) (init : List Product) :
    es.foldl (fun productsSlice e => productsSlice ++ [e.2]) init = init ++ es.map Prod.snd := by
  induction es generalizing init with
  | nil => simp
  | cons e es ih => simp [ih]

theorem mapToSlice_eq (productsMap : GoMap Product) :
    mapToSlice productsMap = productsMap.entries.map Prod.snd := by
  simp [mapToSlice, foldl_append_snd]

/-! ## Lemmas on `main` -/

theorem firstOrCreateProvider_tables (f : Faults) (db : DB) (dest : Provider) :
    (firstOrCreateProvider f db dest).1.providers =
      (if f db.log.length = true then db.providers
       else (db.providers.firstOrCreate (fun x => x.ProviderName) Provider.setID dest).1) ∧
    (firstOrCreateProvider f db dest).1.services = db.services ∧
    (firstOrCreateProvider f db dest).1.regions = db.regions ∧
    (firstOrCreateProvider f db dest).1.skus = db.skus := by
  unfold firstOrCreateProvider
  split <;> simp_all [DB.record]

theorem firstOrCreateService_tables (f : Faults) (db : DB) (dest : Service) :
    (firstOrCreateService f db dest).1.services =
      (if f db.log.length = true then db.services
       else (db.services.firstOrCreate (fun x => x.ServiceName) Service.setID dest).1) ∧
    (firstOrCreateService f db dest).1.providers = db.providers ∧
    (firstOrCreateService f db dest).1.regions = db.regions ∧
    (firstOrCreateService f db dest).1.skus = db.skus := by
  unfold firstOrCreateService
  split <;> simp_all [DB.record]

/-- A run over a store that already covers every key of its input creates no
Provider, Service, Region or SKU row. -/
theorem main_unchanged (f : Faults) (fetch : RegionInfo → Download) (db : DB)
    (regions : GoMap RegionInfo)
    (hp : db.providers.Covered (fun x => x.ProviderName) "AWS")
    (hsv : db.services.Covered (fun x => x.ServiceName) "AmazonEC2")
    (hr : ∀ e ∈ regions.entries, db.regions.Covered (fun x => x.RegionCode) e.2.RegionCode)
    (hs : ∀ c ∈ skuCodes fetch regions, db.skus.Covered (fun x => x.SKUCode) c) :
    (main f fetch db regions).providers = db.providers ∧
    (main f fetch db regions).services = db.services ∧
    (main f fetch db regions).regions = db.regions ∧
    (main f fetch db regions).skus = db.skus := by
  unfold main
  simp only []
  obtain ⟨p1, p2, p3, p4⟩ := firstOrCreateProvider_tables f db { ID := 0, ProviderName := "AWS" }
  have p1b : (firstOrCreateProvider f db { ID := 0, ProviderName := "AWS" }).1.providers
      = db.providers := by
    rw [p1]
    split
    · rfl
    · exact firstOrCreate_unchanged (fun x : Provider => x.ProviderName) Provider.setID
        db.providers { ID := 0, ProviderName := "AWS" } hp
  generalize hP : firstOrCreateProvider f db { ID := 0, ProviderName := "AWS" } = P at *
  obtain ⟨s1, s2, s3, s4⟩ := firstOrCreateService_tables f P.1
    { ID := 0, ServiceName := "AmazonEC2", ProviderID := P.2.1.ID }
  have s1b : (firstOrCreateService f P.1
      { ID := 0, ServiceName := "AmazonEC2", ProviderID := P.2.1.ID }).1.services
      = db.services := by
    rw [s1]
    split
    · exact p2
    · rw [p2]
      exact firstOrCreate_unchanged (fun x : Service => x.ServiceName) Service.setID
        db.services { ID := 0, ServiceName := "AmazonEC2", ProviderID := P.2.1.ID } hsv
  generalize hS : firstOrCreateService f P.1
    { ID := 0, ServiceName := "AmazonEC2", ProviderID := P.2.1.ID } = S at *
  obtain ⟨f1, f2⟩ := processRegions_frame f fetch S.2.1.ID regions.entries S.1
  obtain ⟨u1, u2⟩ := processRegions_unchanged f fetch S.2.1.ID regions.entries S.1
    (fun e he => by rw [s3, p3]; exact hr e he)
    (fun c hc => by rw [s4, p4]; exact hs c hc)
  exact ⟨f1.trans (s2.trans p1b), f2.trans s1b, u1.trans (s3.trans p3), u2.trans (s4.trans p4)⟩

/-! ## The first run under a store whose get-or-create calls succeed -/

theorem firstOrCreateRegion_log (f : Faults) (db : DB) (dest : Region) :
    (firstOrCreateRegion f db dest).1.log =
      db.log ++ [⟨Call.firstOrCreateRegion dest, f db.log.length⟩] := by
  unfold firstOrCreateRegion
  split <;> simp_all [DB.record]

theorem firstOrCreateProvider_log (f : Faults) (db : DB) (dest : Provider) :
    (firstOrCreateProvider f db dest).1.log =
      db.log ++ [⟨Call.firstOrCreateProvider dest, f db.log.length⟩] := by
  unfold firstOrCreateProvider
  split <;> simp_all [DB.record]

theorem firstOrCreateService_log (f : Faults) (db : DB) (dest : Service) :
    (firstOrCreateService f db dest).1.log =
      db.log ++ [⟨Call.firstOrCreateService dest, f db.log.length⟩] := by
  unfold firstOrCreateService
  split <;> simp_all [DB.record]

theorem processCurrentVersionFile_log (f : Faults) (db : DB) (data : PricingData) (r : Nat) :
    ∃ new : List Received, (processCurrentVersionFile f db data r).log =
      (processProducts f db (mapToSlice data.Products) r).log ++ new := by
  unfold processCurrentVersionFile
  simp only []
  rw [processTerms_eq_list]
  exact processTermList_log_extends f _ _

theorem extends_trans {a b c : List Received} (h1 : ∃ n, b = a ++ n) (h2 : ∃ m, c = b ++ m) :
    ∃ k, c = a ++ k := by
  obtain ⟨n, hn⟩ := h1
  obtain ⟨m, hm⟩ := h2
  exact ⟨n ++ m, by rw [hm, hn, List.append_assoc]⟩

theorem processCurrentVersionFile_log_extends (f : Faults) (db : DB) (data : PricingData)
    (r : Nat) : ∃ new : List Received, (processCurrentVersionFile f db data r).log = db.log ++ new :=
  extends_trans ⟨_, processProducts_log f (mapToSlice data.Products) r db⟩
    (processCurrentVersionFile_log f db data r)

theorem processRegions_log_extends (f : Faults) (fetch : RegionInfo → Download) (sid : Nat)
    (rs : List (String × RegionInfo)) (db : DB) :
    ∃ new : List Received, (processRegions f fetch sid db rs).log = db.log ++ new := by
  induction rs generalizing db with
  | nil => exact ⟨[], by simp [processRegions]⟩
  | cons e rest ih =>
    have hR : ∃ n, (firstOrCreateRegion f db
        { ID := 0, RegionCode := e.2.RegionCode, ServiceID := sid }).1.log = db.log ++ n :=
      ⟨_, firstOrCreateRegion_log f db { ID := 0, RegionCode := e.2.RegionCode, ServiceID := sid }⟩
    cases hfe : fetch e.2 with
    | failed =>
      simp only [processRegions, hfe]
      exact extends_trans hR (ih _)
    | undecodable =>
      simp only [processRegions, hfe]
      exact hR
    | decoded data =>
      simp only [processRegions, hfe]
      exact extends_trans (extends_trans hR (processCurrentVersionFile_log_extends f _ data _))
        (ih _)

/-- When the get-or-create calls of the region loop succeed and every fetched
document decodes, the final tables cover every region code and every SKU code
of the input. -/
theorem processRegions_covered_ok (f : Faults) (fetch : RegionInfo → Download) (sid : Nat)
    (rs : List (String × RegionInfo)) (db : DB)
    (hdec : ∀ e ∈ rs, fetch e.2 ≠ Download.undecodable)
    (hok : GetOrCreateOK (processRegions f fetch sid db rs).log) :
    (∀ e ∈ rs, (processRegions f fetch sid db rs).regions.Covered
      (fun x => x.RegionCode) e.2.RegionCode) ∧
    (∀ c ∈ skuCodesOf fetch rs, (processRegions f fetch sid db rs).skus.Covered
      (fun x => x.SKUCode) c) := by
  induction rs generalizing db with
  | nil => simp [skuCodesOf]
  | cons e rest ih =>
    obtain ⟨R, hRdef⟩ : ∃ R : DB × Region × Bool,
        R = firstOrCreateRegion f db ⟨0, e.2.RegionCode, sid⟩ := ⟨_, rfl⟩
    have hR : R.1.log = db.log ++
        [⟨Call.firstOrCreateRegion ⟨0, e.2.RegionCode, sid⟩, f db.log.length⟩] := by
      rw [hRdef]; exact firstOrCreateRegion_log f db _
    have hRt : R.1.regions = if f db.log.length = true then db.regions
        else (db.regions.firstOrCreate (fun x => x.RegionCode) Region.setID
          ⟨0, e.2.RegionCode, sid⟩).1 := by
      rw [hRdef]; exact firstOrCreateRegion_regions f db _
    have hregion : ∀ final : DB, (∃ new, final.log = R.1.log ++ new) → GetOrCreateOK final.log →
        R.1.regions.Covered (fun x => x.RegionCode) e.2.RegionCode := by
      intro final hext hfin
      obtain ⟨new, hnew⟩ := hext
      have hmem : (⟨Call.firstOrCreateRegion ⟨0, e.2.RegionCode, sid⟩, f db.log.length⟩ :
          Received) ∈ final.log := by
        rw [hnew, hR]
        simp
      have hf : f db.log.length = false := hfin _ hmem rfl
      rw [hRt, hf]
      simp only [Bool.false_eq_true, if_false]
      exact firstOrCreate_covered (fun x : Region => x.RegionCode) Region.setID
        (fun _ _ => rfl) db.regions ⟨0, e.2.RegionCode, sid⟩
    cases hfe : fetch e.2 with
    | undecodable => exact absurd hfe (hdec e (List.mem_cons_self _ _))
    | failed =>
      have hstep : processRegions f fetch sid db (e :: rest) =
          processRegions f fetch sid R.1 rest := by
        rw [hRdef]; simp only [processRegions, hfe]
      rw [hstep] at hok ⊢
      have hrest := ih R.1 (fun x hx => hdec x (List.mem_cons_of_mem _ hx)) hok
      have hmono := processRegions_mono f fetch sid rest R.1
      have hcov := hregion _ (processRegions_log_extends f fetch sid rest R.1) hok
      constructor
      · intro x hx
        rcases List.mem_cons.1 hx with h | h
        · rw [h]
          exact covered_mono (fun x : Region => x.RegionCode) hmono.1 hcov
        · exact hrest.1 x h
      · intro c hc
        simp only [skuCodesOf, docSKUCodes, hfe, List.nil_append] at hc
        exact hrest.2 c hc
    | decoded data =>
      have hstep : processRegions f fetch sid db (e :: rest) =
          processRegions f fetch sid (processCurrentVersionFile f R.1 data R.2.1.ID) rest := by
        rw [hRdef]; simp only [processRegions, hfe]
      rw [hstep] at hok ⊢
      have hrest := ih _ (fun x hx => hdec x (List.mem_cons_of_mem _ hx)) hok
      have hmono := processRegions_mono f fetch sid rest
        (processCurrentVersionFile f R.1 data R.2.1.ID)
      have hextMid := processRegions_log_extends f fetch sid rest
        (processCurrentVersionFile f R.1 data R.2.1.ID)
      have hcov := hregion _
        (extends_trans (processCurrentVersionFile_log_extends f R.1 data R.2.1.ID) hextMid) hok
      obtain ⟨_, _, hfr, hfs⟩ := processCurrentVersionFile_frame f R.1 data R.2.1.ID
      constructor
      · intro x hx
        rcases List.mem_cons.1 hx with h | h
        · rw [h]
          apply covered_mono (fun x : Region => x.RegionCode) hmono.1
          rw [hfr]
          exact hcov
        · exact hrest.1 x h
      · intro c hc
        simp only [skuCodesOf, docSKUCodes, hfe, List.mem_append] at hc
        rcases hc with h | h
        · obtain ⟨p, hp, hpc⟩ := List.mem_map.1 h
          have hmem : p ∈ (List.enumFrom R.1.log.length (mapToSlice data.Products)).map
              Prod.snd := by
            rw [List.enumFrom_map_snd]; exact hp
          obtain ⟨x, hx, hxp⟩ := List.mem_map.1 hmem
          have hx2 : (x.1, p) ∈ List.enumFrom R.1.log.length (mapToSlice data.Products) := by
            rw [← hxp]; exact hx
          have hrec : (⟨Call.firstOrCreateSKU (buildSKU p R.2.1.ID), f x.1⟩ : Received) ∈
              (processProducts f R.1 (mapToSlice data.Products) R.2.1.ID).log := by
            rw [processProducts_log]
            apply List.mem_append_right
            exact List.mem_map.2 ⟨(x.1, p), hx2, rfl⟩
          obtain ⟨n1, hn1⟩ := processCurrentVersionFile_log f R.1 data R.2.1.ID
          obtain ⟨n2, hn2⟩ := hextMid
          have hfin : (⟨Call.firstOrCreateSKU (buildSKU p R.2.1.ID), f x.1⟩ : Received) ∈
              (processRegions f fetch sid (processCurrentVersionFile f R.1 data R.2.1.ID)
                rest).log := by
            rw [hn2, hn1]
            exact List.mem_append_left _ (List.mem_append_left _ hrec)
          have hf : f x.1 = false := hok _ hfin rfl
          have hc2 := processProducts_covered f (mapToSlice data.Products) R.2.1.ID R.1 x.1 p
            hx2 hf
          rw [← hpc]
          apply covered_mono (fun x : SKU => x.SKUCode) hmono.2
          rw [hfs]
          exact hc2
        · exact hrest.2 c h

/-- The log of a run from the empty database starts with the Provider and the
Service get-or-create calls, failing as the schedule says at indices 0 and 1. -/
theorem main_log_head (f : Faults) (fetch : RegionInfo → Download) (regions : GoMap RegionInfo) :
    ∃ (d : Service) (more : List Received), (main f fetch emptyDB regions).log =
      ⟨Call.firstOrCreateProvider ⟨0, "AWS"⟩, f 0⟩ :: ⟨Call.firstOrCreateService d, f 1⟩ :: more := by
  unfold main
  simp only []
  obtain ⟨new, hnew⟩ := processRegions_log_extends f fetch
    (firstOrCreateService f (firstOrCreateProvider f emptyDB ⟨0, "AWS"⟩).1
      ⟨0, "AmazonEC2", (firstOrCreateProvider f emptyDB ⟨0, "AWS"⟩).2.1.ID⟩).2.1.ID
    regions.entries
    (firstOrCreateService f (firstOrCreateProvider f emptyDB ⟨0, "AWS"⟩).1
      ⟨0, "AmazonEC2", (firstOrCreateProvider f emptyDB ⟨0, "AWS"⟩).2.1.ID⟩).1
  refine ⟨⟨0, "AmazonEC2", (firstOrCreateProvider f emptyDB ⟨0, "AWS"⟩).2.1.ID⟩, new, ?_⟩
  rw [hnew, firstOrCreateService_log, firstOrCreateProvider_log]
  simp [emptyDB]

/-- The first run from the empty database when the Provider and the Service
calls succeed: the tables right before the region loop. -/
theorem main_start (f : Faults) (fetch : RegionInfo → Download) (regions : GoMap RegionInfo)
    (h0 : f 0 = false) (h1 : f 1 = false) :
    ∃ start : DB, start.providers.rows = [⟨1, "AWS"⟩] ∧
      start.services.rows = [⟨1, "AmazonEC2", 1⟩] ∧
      start.regions.rows = [] ∧ start.skus.rows = [] ∧
      main f fetch emptyDB regions = processRegions f fetch 1 start regions.entries := by
  have hp : firstOrCreateProvider f emptyDB ⟨0, "AWS"⟩ =
      firstOrCreateProvider noFaults emptyDB ⟨0, "AWS"⟩ := by
    simp [firstOrCreateProvider, noFaults, emptyDB, h0]
  have hs : firstOrCreateService f (firstOrCreateProvider noFaults emptyDB ⟨0, "AWS"⟩).1
      ⟨0, "AmazonEC2", 1⟩ =
      firstOrCreateService noFaults (firstOrCreateProvider noFaults emptyDB ⟨0, "AWS"⟩).1
        ⟨0, "AmazonEC2", 1⟩ := by
    have hlen : (firstOrCreateProvider noFaults emptyDB ⟨0, "AWS"⟩).1.log.length = 1 := by decide
    simp [firstOrCreateService, noFaults, hlen, h1]
  refine ⟨(firstOrCreateService noFaults
      (firstOrCreateProvider noFaults emptyDB ⟨0, "AWS"⟩).1 ⟨0, "AmazonEC2", 1⟩).1,
    by decide, by decide, by decide, by decide, ?_⟩
  unfold main
  simp only []
  rw [hp]
  have hid : (firstOrCreateProvider noFaults emptyDB ⟨0, "AWS"⟩).2.1.ID = 1 := by decide
  rw [hid, hs]
  rfl

/-! ## The properties of the specification -/

/-- C1: for every product record `p` and region id `r`, the SKU record that
`processProducts` builds for `p` (the one it passes to the upsert) has
`SKUCode = p.SKU`, `ProductFamily = p.ProductFamily`, `RegionID = r`, and each
of the seven string attributes equal to the value stored in `p.Attributes`
under its fixed key, or the empty string when that key is absent, in
particular when the dictionary is the nil map. -/
theorem processProducts_sku_fields (f : Faults) (db : DB) (p : Product) (r : Nat)
    (hmap : (p.Attributes.entries.map Prod.fst).Nodup) :
    (processProducts f db [p] r).log =
        db.log ++ [⟨Call.firstOrCreateSKU (buildSKU p r), f db.log.length⟩] ∧
    (buildSKU p r).SKUCode = p.SKU ∧
    (buildSKU p r).ProductFamily = p.ProductFamily ∧
    (buildSKU p r).RegionID = r ∧
    ReadsAttr p "operatingSystem" (buildSKU p r).OperatingSystem ∧
    ReadsAttr p "instanceType" (buildSKU p r).InstanceType ∧
    ReadsAttr p "storage" (buildSKU p r).Storage ∧
    ReadsAttr p "networkPerformance" (buildSKU p r).Network ∧
    ReadsAttr p "instancesku" (buildSKU p r).InstanceSKU ∧
    ReadsAttr p "physicalProcessor" (buildSKU p r).Processor ∧
    ReadsAttr p "usagetype" (buildSKU p r).UsageType ∧
    (p.Attributes = GoMap.nil →
      (buildSKU p r).OperatingSystem = "" ∧ (buildSKU p r).InstanceType = "" ∧
      (buildSKU p r).Storage = "" ∧ (buildSKU p r).Network = "" ∧
      (buildSKU p r).InstanceSKU = "" ∧ (buildSKU p r).Processor = "" ∧
      (buildSKU p r).UsageType = "") := by
  refine ⟨?_, rfl, rfl, rfl, readsAttr_attr p _ hmap, readsAttr_attr p _ hmap,
    readsAttr_attr p _ hmap, readsAttr_attr p _ hmap, readsAttr_attr p _ hmap,
    readsAttr_attr p _ hmap, readsAttr_attr p _ hmap, ?_⟩
  · rw [processProducts_log]
    simp [List.enumFrom]
  · intro hnil
    simp [buildSKU, attr, hnil, GoMap.index, GoMap.entries]

/-- Witness of C1: the example product has operating system `Linux` and, with
no `storage` attribute, an empty storage descriptor. -/
theorem processProducts_sku_fields_witness :
    (buildSKU exampleProduct 7).OperatingSystem = "Linux" ∧
    (buildSKU exampleProduct 7).Storage = "" :=
  ⟨((processProducts_sku_fields noFaults emptyDB exampleProduct 7 (by decide)).2.2.2.2.1).1
      "Linux" (by decide),
   ((processProducts_sku_fields noFaults emptyDB exampleProduct 7 (by decide)).2.2.2.2.2.2.1).2
      (by decide)⟩

/-- C2: the VCPU of the SKU record built for a product is `0` when the
attribute dictionary has no `vcpu` key or stores the empty string under it, and
is `n` when the `vcpu` value is the decimal numeral of an integer `n` that fits
the 64-bit `int` type. -/
theorem processProducts_vcpu_numeral (p : Product) (r : Nat) :
    ((p.Attributes.hasKey "vcpu" = false ∨ attr p "vcpu" = "") → (buildSKU p r).VCPU = 0) ∧
    (∀ n : Int, -9223372036854775808 ≤ n → n < 9223372036854775808 →
      attr p "vcpu" = toString n → (buildSKU p r).VCPU = n) := by
  constructor
  · intro h
    have hempty : attr p "vcpu" = "" := by
      rcases h with h | h
      · exact index_of_not_hasKey p.Attributes "vcpu" "" h
      · exact h
    have h0 : Atoi "0" = (0, none) := by decide
    simp [buildSKU, hempty, defaultIfEmpty, h0]
  · intro n hlo hhi hv
    have hne : toString n ≠ "" := by
      intro he
      have h1 : (Atoi (toString n)).2 = none := by rw [Atoi_toString n hlo hhi]
      rw [he] at h1
      revert h1
      decide
    simp only [buildSKU, hv, defaultIfEmpty, hne, if_false, Atoi_toString n hlo hhi]

/-- Witness of C2: `vcpu: "4"` gives 4 and a product without attributes gives 0. -/
theorem processProducts_vcpu_numeral_witness :
    (buildSKU (vcpuProduct "4") 1).VCPU = 4 ∧ (buildSKU bareProduct 1).VCPU = 0 :=
  ⟨(processProducts_vcpu_numeral (vcpuProduct "4") 1).2 4 (by decide) (by decide) (by decide),
   (processProducts_vcpu_numeral bareProduct 1).1 (Or.inl (by decide))⟩

/-- Counterexample to C3 as stated: the text `99999999999999999999` makes
`Atoi` return a non-nil (range) error, and the SKU record gets the largest
`int`, not `0`. -/
theorem vcpu_range_error_counterexample :
    ¬ (∀ (p : Product) (r : Nat), (Atoi (attr p "vcpu")).2 ≠ none → (buildSKU p r).VCPU = 0) := by
  intro h
  have h1 := h (vcpuProduct "99999999999999999999") 1 (by decide)
  revert h1
  decide

/-- C3, amended: when `Atoi` rejects the `vcpu` text with a syntax error the
SKU record has `VCPU = 0`; when it rejects it with a range error the SKU record
has the nearest bound of `int`: `-2^63` for a text starting with `-`, else
`2^63 - 1`. -/
theorem processProducts_vcpu_on_error (p : Product) (r : Nat) (e : NumError)
    (h : (Atoi (attr p "vcpu")).2 = some e) :
    (buildSKU p r).VCPU =
      match e with
      | NumError.ErrSyntax => 0
      | NumError.ErrRange =>
        if (goBytes (attr p "vcpu")).head? = some 45 then -9223372036854775808
        else 9223372036854775807 := by
  by_cases hempty : attr p "vcpu" = ""
  · have h0 : Atoi "0" = (0, none) := by decide
    have he : (Atoi "").2 = some NumError.ErrSyntax := by decide
    rw [hempty, he] at h
    cases h
    simp [buildSKU, hempty, defaultIfEmpty, h0]
  · have hv : (buildSKU p r).VCPU = (Atoi (attr p "vcpu")).1 := by
      simp [buildSKU, defaultIfEmpty, hempty]
    rw [hv]
    cases e with
    | ErrSyntax => exact AtoiBytes_syntax _ h
    | ErrRange => exact AtoiBytes_range _ h

/-- Witness of C3, amended: `vcpu: "not-a-number"` is a syntax error and gives
`VCPU = 0`. -/
theorem processProducts_vcpu_on_error_witness :
    (buildSKU (vcpuProduct "not-a-number") 1).VCPU = 0 :=
  processProducts_vcpu_on_error (vcpuProduct "not-a-number") 1 NumError.ErrSyntax (by decide)

/-- C4, the code at the failing input: the store holds the single SKU
`ABC123`; the term map has one offer term under the SKU key `ZZZ`.  The lookup
for `ZZZ` returns no row, yet no error, and `processTerms` inserts a Term row
whose `SKU_ID` is `0`, the id of no stored SKU. -/
theorem processTerms_inserts_unresolved :
    lookupSKUID exampleDB "ZZZ" = none ∧
    (exampleDB.skus.rows.map (fun row => row.ID)) = [1] ∧
    (processTerms noFaults exampleDB
      (GoMap.mk [("ZZZ", GoMap.mk [("ZZZ.JRTCKXETXF", exampleTerm)])])).terms.rows =
      [{ OfferTermID := 1, SKU_ID := 0, OfferTermCode := "JRTCKXETXF",
         LeaseContractLength := "1yr", PurchaseOption := "No Upfront",
         OfferingClass := "standard", CreatedAt := 0, ModifiedAt := 0, DisableFlag := false }] := by
  decide

/-- C5: every Term record `processTerms` passes to the store's insert comes
from a term-detail record `d` under some SKU key `k` of the map and has
`SKU_ID` equal to the id `s` the lookup of `k` resolves to, the offer-term code
and the three term attributes of `d`, and zero values for the primary key, the
two timestamps and the disabled flag; `PriceDimensions` does not enter the
record.  When the lookup resolves and reports no error, the record is passed
to the insert. -/
theorem processTerms_term_record (f : Faults) (db : DB) (terms : GoMap (GoMap TermDetails)) :
    (∀ t ∈ createdTerms ((processTerms f db terms).log.drop db.log.length),
      ∃ k g key d, (k, g) ∈ terms.entries ∧ (key, d) ∈ g.entries ∧
        (∀ s, lookupSKUID db k = some s → t.SKU_ID = (s : Int)) ∧
        t.OfferTermCode = d.OfferTermCode ∧
        t.LeaseContractLength = d.TermAttributes.LeaseContractLength ∧
        t.PurchaseOption = d.TermAttributes.PurchaseOption ∧
        t.OfferingClass = d.TermAttributes.OfferingClass ∧
        t.OfferTermID = 0 ∧ t.CreatedAt = 0 ∧ t.ModifiedAt = 0 ∧ t.DisableFlag = false ∧
        (∀ pd, buildTerm t.SKU_ID { d with PriceDimensions := pd } = t)) ∧
    (∀ k d s, lookupSKUID db k = some s → f db.log.length = false →
      (processTermEntry f db k d).log = db.log ++
        [⟨Call.scanSKUID k, false⟩,
         ⟨Call.createTerm (buildTerm (s : Int) d), f (db.log.length + 1)⟩]) := by
  constructor
  · intro t ht
    rw [processTerms_eq_list] at ht
    obtain ⟨new, hnew⟩ := processTermList_log_extends f (termEntries terms) db
    obtain ⟨l, hl, hsub⟩ := processTermList_created f (termEntries terms) db
    rw [hnew, createdTerms_append] at hl
    have hl2 : createdTerms new = l := List.append_cancel_left hl
    rw [hnew, List.drop_left, hl2] at ht
    obtain ⟨e, he, hte⟩ := List.mem_map.1 (hsub.subset ht)
    obtain ⟨g, key, hg, hkey⟩ := (mem_flattenGroups terms.entries e.1 e.2).1 he
    refine ⟨e.1, g, key, e.2, hg, hkey, ?_, ?_⟩
    · intro s hs
      rw [← hte]
      simp [buildTerm, resolveSKUID, hs]
    · rw [← hte]
      simp [buildTerm]
  · intro k d s hs h0
    have hres : resolveSKUID db k = (s : Int) := by simp [resolveSKUID, hs]
    rw [processTermEntry_eq, h0, hres]
    cases h1 : f (db.log.length + 1) <;> simp [DB.record]

/-- Witness of C5: with the SKU `ABC123` stored under id 1, the term under key
`ABC123` is passed to the insert with `SKU_ID = 1`. -/
theorem processTerms_term_record_witness :
    (processTermEntry noFaults exampleDB "ABC123" exampleTerm).log = exampleDB.log ++
      [⟨Call.scanSKUID "ABC123", false⟩,
       ⟨Call.createTerm (buildTerm 1 exampleTerm), false⟩] :=
  (processTerms_term_record noFaults exampleDB GoMap.nil).2 "ABC123" exampleTerm 1
    (by decide) rfl

/-- C8: while a decoded document is processed, the Term inserts attempted are
a sub-sequence of the entries of `terms["OnDemand"]` (at most one per entry, so
at most `M` rows for `M` entries); two documents with the same products and the
same `OnDemand` class are processed identically whatever their other term
classes hold; a document without an `OnDemand` class inserts no Term row. -/
theorem processCurrentVersionFile_onDemand_only (f : Faults) (db : DB) (data : PricingData)
    (r : Nat) :
    (∃ l : List Term,
      createdTerms (processCurrentVersionFile f db data r).log = createdTerms db.log ++ l ∧
      l.Sublist ((termEntries (data.Terms.index "OnDemand" GoMap.nil)).map
        (fun e => buildTerm
          (resolveSKUID (processProducts f db (mapToSlice data.Products) r) e.1) e.2)) ∧
      l.length ≤ (termEntries (data.Terms.index "OnDemand" GoMap.nil)).length) ∧
    (processCurrentVersionFile f db data r).terms.rows.length ≤
      db.terms.rows.length + (termEntries (data.Terms.index "OnDemand" GoMap.nil)).length ∧
    (∀ data2 : PricingData, data2.Products = data.Products →
      data2.Terms.index "OnDemand" GoMap.nil = data.Terms.index "OnDemand" GoMap.nil →
      processCurrentVersionFile f db data2 r = processCurrentVersionFile f db data r) ∧
    (data.Terms.hasKey "OnDemand" = false →
      (processCurrentVersionFile f db data r).terms = db.terms ∧
      createdTerms (processCurrentVersionFile f db data r).log = createdTerms db.log) := by
  have hterms := (processProducts_frame f (mapToSlice data.Products) r db).2.2.2
  have hcre := processProducts_created f (mapToSlice data.Products) r db
  refine ⟨?_, ?_, ?_, ?_⟩
  · obtain ⟨l, hl, hsub⟩ := processTermList_created f
      (termEntries (data.Terms.index "OnDemand" GoMap.nil))
      (processProducts f db (mapToSlice data.Products) r)
    refine ⟨l, ?_, hsub, ?_⟩
    · simp only [processCurrentVersionFile, processTerms_eq_list]
      rw [hl, hcre]
    · simpa using hsub.length_le
  · have h := processTermList_rows f (termEntries (data.Terms.index "OnDemand" GoMap.nil))
      (processProducts f db (mapToSlice data.Products) r)
    rw [hterms] at h
    simpa only [processCurrentVersionFile, processTerms_eq_list] using h
  · intro data2 hp ht
    simp only [processCurrentVersionFile, hp, ht]
  · intro hno
    have hidx : data.Terms.index "OnDemand" GoMap.nil = GoMap.nil :=
      index_of_not_hasKey data.Terms "OnDemand" GoMap.nil hno
    simp only [processCurrentVersionFile, processTerms_eq_list, hidx]
    exact ⟨hterms, hcre⟩

/-- Witness of C8: a document whose only term class is `Reserved` leaves the
Term table as it was. -/
theorem processCurrentVersionFile_onDemand_only_witness :
    (processCurrentVersionFile noFaults exampleDB
      { Products := GoMap.nil,
        Terms := GoMap.mk [("Reserved", GoMap.mk [("ABC123", GoMap.mk [("t", exampleTerm)])])] }
      7).terms = exampleDB.terms :=
  ((processCurrentVersionFile_onDemand_only noFaults exampleDB _ 7).2.2.2 (by decide)).1

/-- C10: `processTerms` makes no existence check.  Over a store that fails no
call, one run appends one Term row per (SKU key, offer-term key) entry,
whatever the Term table already holds; after a second run on the same map
(its entries visited in any order) the number of rows with a given SKU id and
offer-term code has grown by twice the number of entries with that pair, so
every pair of the map has at least two rows. -/
theorem processTerms_duplicates (db : DB) (terms terms2 : GoMap (GoMap TermDetails))
    (hsame : (termEntries terms2).Perm (termEntries terms)) :
    (processTerms noFaults db terms).terms.rows.map Term.withoutID =
      db.terms.rows.map Term.withoutID ++
        (termEntries terms).map (fun e => buildTerm (resolveSKUID db e.1) e.2) ∧
    (processTerms noFaults db terms).terms.rows.length =
      db.terms.rows.length + (termEntries terms).length ∧
    (processTerms noFaults (processTerms noFaults db terms) terms2).terms.rows.length =
      db.terms.rows.length + 2 * (termEntries terms).length ∧
    (∀ (s : Int) (c : String),
      termCount (processTerms noFaults (processTerms noFaults db terms) terms2).terms.rows s c =
        termCount db.terms.rows s c +
          2 * (termEntries terms).countP
            (fun e => resolveSKUID db e.1 == s && e.2.OfferTermCode == c)) ∧
    (∀ e ∈ termEntries terms,
      termCount db.terms.rows (resolveSKUID db e.1) e.2.OfferTermCode + 2 ≤
        termCount (processTerms noFaults (processTerms noFaults db terms) terms2).terms.rows
          (resolveSKUID db e.1) e.2.OfferTermCode) := by
  have h1 := processTermList_noFaults (termEntries terms) db
  have h2 := processTermList_noFaults (termEntries terms2) (processTermList noFaults db
    (termEntries terms))
  have hsk : (processTermList noFaults db (termEntries terms)).skus = db.skus :=
    (processTermList_frame noFaults (termEntries terms) db).2.2.2
  have hmap : (termEntries terms2).map
        (fun x => buildTerm (resolveSKUID (processTermList noFaults db (termEntries terms)) x.1) x.2)
      = (termEntries terms2).map (fun x => buildTerm (resolveSKUID db x.1) x.2) := by
    apply List.map_congr_left
    intro x _
    rw [resolveSKUID_congr db _ hsk]
  rw [hmap, h1] at h2
  have hcount : ∀ (s : Int) (c : String),
      termCount (processTermList noFaults (processTermList noFaults db (termEntries terms))
        (termEntries terms2)).terms.rows s c =
        termCount db.terms.rows s c +
          2 * (termEntries terms).countP
            (fun e => resolveSKUID db e.1 == s && e.2.OfferTermCode == c) := by
    intro s c
    rw [← termCount_withoutID, h2, termCount_append, termCount_append, termCount_withoutID,
      termCount_build, termCount_build, hsame.countP_eq]
    omega
  simp only [processTerms_eq_list]
  refine ⟨h1, ?_, ?_, hcount, ?_⟩
  · have := congrArg List.length h1
    simpa using this
  · have := congrArg List.length h2
    simp only [List.length_map, List.length_append, hsame.length_eq] at this
    omega
  · intro e he
    rw [hcount]
    have hpos : 0 < (termEntries terms).countP
        (fun x => resolveSKUID db x.1 == resolveSKUID db e.1 &&
          x.2.OfferTermCode == e.2.OfferTermCode) := by
      rw [List.countP_pos_iff]
      exact ⟨e, he, by simp⟩
    omega

/-- Witness of C10: two runs over a one-entry map leave two Term rows for the
pair (SKU id 1, `JRTCKXETXF`). -/
theorem processTerms_duplicates_witness :
    termCount (processTerms noFaults (processTerms noFaults exampleDB
      (GoMap.mk [("ABC123", GoMap.mk [("t", exampleTerm)])]))
      (GoMap.mk [("ABC123", GoMap.mk [("t", exampleTerm)])])).terms.rows 1 "JRTCKXETXF" = 2 :=
  ((processTerms_duplicates exampleDB (GoMap.mk [("ABC123", GoMap.mk [("t", exampleTerm)])])
    (GoMap.mk [("ABC123", GoMap.mk [("t", exampleTerm)])]) (List.Perm.refl _)).2.2.2.1
    1 "JRTCKXETXF").trans (by decide)

/-- C7: for a products mapping with `N` entries, `mapToSlice` returns exactly
`N` product records, the values of the mapping in visiting order: as a multiset
they are the values of the mapping, whatever order the `range` visits them in;
and `processProducts` makes exactly one SKU upsert call per element of that
sequence. -/
theorem mapToSlice_complete (f : Faults) (db : DB) (productsMap : GoMap Product) (r : Nat) :
    (mapToSlice productsMap).length = productsMap.len ∧
    mapToSlice productsMap = productsMap.entries.map Prod.snd ∧
    ((mapToSlice productsMap : List Product) : Multiset Product) =
      Multiset.map Prod.snd ((productsMap.entries : List (String × Product)) :
        Multiset (String × Product)) ∧
    (∀ other : GoMap Product, other.entries.Perm productsMap.entries →
      (mapToSlice other).Perm (mapToSlice productsMap)) ∧
    ((processProducts f db (mapToSlice productsMap) r).log.drop db.log.length).map
        (fun c => c.call) =
      (mapToSlice productsMap).map (fun p => Call.firstOrCreateSKU (buildSKU p r)) ∧
    (processProducts f db (mapToSlice productsMap) r).log.length =
      db.log.length + productsMap.len := by
  refine ⟨?_, mapToSlice_eq productsMap, ?_, ?_, ?_, ?_⟩
  · simp [mapToSlice_eq, GoMap.len]
  · rw [mapToSlice_eq]
    rfl
  · intro other hperm
    rw [mapToSlice_eq, mapToSlice_eq]
    exact hperm.map _
  · rw [processProducts_log, List.drop_left, List.map_map]
    have h : ((fun c : Received => c.call) ∘
        fun ip : Nat × Product => (⟨Call.firstOrCreateSKU (buildSKU ip.2 r), f ip.1⟩ : Received))
        = (fun p => Call.firstOrCreateSKU (buildSKU p r)) ∘ Prod.snd := rfl
    rw [h, ← List.map_map, List.enumFrom_map_snd]
  · rw [processProducts_log]
    simp [mapToSlice_eq, GoMap.len]

/-- Witness of C7: visiting a two-entry map in the other order gives a
permutation of the same slice. -/
theorem mapToSlice_complete_witness :
    (mapToSlice (GoMap.mk [("k2", codeProduct "S2"), ("k1", codeProduct "S1")])).Perm
      (mapToSlice (GoMap.mk [("k1", codeProduct "S1"), ("k2", codeProduct "S2")])) :=
  (mapToSlice_complete noFaults emptyDB
    (GoMap.mk [("k1", codeProduct "S1"), ("k2", codeProduct "S2")]) 1).2.2.2.1
    (GoMap.mk [("k2", codeProduct "S2"), ("k1", codeProduct "S1")]) (List.Perm.swap _ _ _)

/-- Counterexample to C6 as stated.  First input: one region whose document
holds the products `A` and one with the empty code; no call fails, yet after
the first and after the second run no SKU row has the empty code, which is a
SKU code of the document.  Second input: the index `r1`, `r2` where the
document of `r1` cannot be decoded; the first run stops at `r1`, and the
second run, visiting the same index in the other order, creates the Region
row `r2` and the SKU row `A`. -/
theorem main_rerun_counterexample :
    ("" ∈ skuCodes emptyCodeFetch exampleIndex ∧
      ((main noFaults emptyCodeFetch emptyDB exampleIndex).skus.rows.map
        (fun x => x.SKUCode)).count "" = 0 ∧
      ((main noFaults emptyCodeFetch (main noFaults emptyCodeFetch emptyDB exampleIndex)
        exampleIndex).skus.rows.map (fun x => x.SKUCode)).count "" = 0) ∧
    (twoRegionsSwapped.entries.Perm twoRegions.entries ∧
      (main noFaults brokenFetch emptyDB twoRegions).regions.rows.map
        (fun x => x.RegionCode) = ["r1"] ∧
      (main noFaults brokenFetch emptyDB twoRegions).skus.rows = [] ∧
      (main noFaults brokenFetch (main noFaults brokenFetch emptyDB twoRegions)
        twoRegionsSwapped).regions.rows.map (fun x => x.RegionCode) = ["r1", "r2"] ∧
      (main noFaults brokenFetch (main noFaults brokenFetch emptyDB twoRegions)
        twoRegionsSwapped).skus.rows.map (fun x => x.SKUCode) = ["A"]) :=
  ⟨⟨by decide, by decide, by decide⟩,
    ⟨List.Perm.swap _ _ _, by decide, by decide, by decide, by decide⟩⟩

/-- C6, amended: over a store whose get-or-create calls do not fail (any other
call may), with every fetched document decodable, the first run of the store
operations of `main` from the empty database leaves exactly one Provider row
(`AWS`), one Service row (`AmazonEC2`), Region rows with pairwise distinct
codes, all from the index, exactly one for every non-empty region code of the
index, and likewise SKU rows for the SKU codes of the documents.  A second run
whose region codes and SKU codes all occur in the first run (the same index
and documents, visited in any order), under any fault schedule, creates no
Provider, Service, Region or SKU row. -/
theorem main_rerun_idempotent (f f2 : Faults) (fetch fetch2 : RegionInfo → Download)
    (regions regions2 : GoMap RegionInfo)
    (hok : GetOrCreateOK (main f fetch emptyDB regions).log)
    (hdec : ∀ e ∈ regions.entries, fetch e.2 ≠ Download.undecodable)
    (hR : ∀ c ∈ regionCodes regions2, c ∈ regionCodes regions)
    (hS : ∀ c ∈ skuCodes fetch2 regions2, c ∈ skuCodes fetch regions) :
    (main f fetch emptyDB regions).providers.rows = [⟨1, "AWS"⟩] ∧
    (main f fetch emptyDB regions).services.rows = [⟨1, "AmazonEC2", 1⟩] ∧
    ((main f fetch emptyDB regions).regions.rows.map (fun x => x.RegionCode)).Nodup ∧
    (∀ row ∈ (main f fetch emptyDB regions).regions.rows,
      row.RegionCode ∈ regionCodes regions) ∧
    (∀ c ∈ regionCodes regions, c ≠ "" →
      ((main f fetch emptyDB regions).regions.rows.map (fun x => x.RegionCode)).count c = 1) ∧
    ((main f fetch emptyDB regions).skus.rows.map (fun x => x.SKUCode)).Nodup ∧
    (∀ row ∈ (main f fetch emptyDB regions).skus.rows,
      row.SKUCode ∈ skuCodes fetch regions) ∧
    (∀ c ∈ skuCodes fetch regions, c ≠ "" →
      ((main f fetch emptyDB regions).skus.rows.map (fun x => x.SKUCode)).count c = 1) ∧
    (main f2 fetch2 (main f fetch emptyDB regions) regions2).providers
      = (main f fetch emptyDB regions).providers ∧
    (main f2 fetch2 (main f fetch emptyDB regions) regions2).services
      = (main f fetch emptyDB regions).services ∧
    (main f2 fetch2 (main f fetch emptyDB regions) regions2).regions
      = (main f fetch emptyDB regions).regions ∧
    (main f2 fetch2 (main f fetch emptyDB regions) regions2).skus
      = (main f fetch emptyDB regions).skus := by
  obtain ⟨d, more, hhead⟩ := main_log_head f fetch regions
  have h0 : f 0 = false := hok ⟨Call.firstOrCreateProvider ⟨0, "AWS"⟩, f 0⟩
    (by rw [hhead]; simp) rfl
  have h1 : f 1 = false := hok ⟨Call.firstOrCreateService d, f 1⟩ (by rw [hhead]; simp) rfl
  obtain ⟨start, hp, hsv, hr0, hs0, hrun⟩ := main_start f fetch regions h0 h1
  rw [hrun] at hok
  obtain ⟨f1, f2'⟩ := processRegions_frame f fetch 1 regions.entries start
  obtain ⟨n1, n2⟩ := processRegions_nodup f fetch 1 regions.entries start
    (by simp [hr0]) (by simp [hs0])
  obtain ⟨o1, o2⟩ := processRegions_origin f fetch 1 regions.entries start
  obtain ⟨c1, c2⟩ := processRegions_covered_ok f fetch 1 regions.entries start hdec hok
  rw [← hrun] at f1 f2' n1 n2 o1 o2 c1 c2
  generalize main f fetch emptyDB regions = db1 at *
  have hregAll : ∀ c ∈ regionCodes regions,
      db1.regions.Covered (fun x => x.RegionCode) c := by
    intro c hc
    obtain ⟨e, he, hec⟩ := List.mem_map.1 hc
    rw [← hec]
    exact c1 e he
  have hprov : db1.providers.rows = [⟨1, "AWS"⟩] := by rw [f1, hp]
  have hserv : db1.services.rows = [⟨1, "AmazonEC2", 1⟩] := by rw [f2', hsv]
  refine ⟨hprov, hserv, n1, ?_, ?_, n2, ?_, ?_, ?_⟩
  · intro row hrow
    rcases o1 row hrow with h | h
    · rw [hr0] at h; simp at h
    · exact h
  · intro c hc hne
    exact List.count_eq_one_of_mem n1
      ((covered_iff_of_ne (fun x : Region => x.RegionCode) db1.regions hne).1 (hregAll c hc))
  · intro row hrow
    rcases o2 row hrow with h | h
    · rw [hs0] at h; simp at h
    · exact h
  · intro c hc hne
    exact List.count_eq_one_of_mem n2
      ((covered_iff_of_ne (fun x : SKU => x.SKUCode) db1.skus hne).1 (c2 c hc))
  · apply main_unchanged f2 fetch2 db1 regions2
    · exact ⟨⟨1, "AWS"⟩, by rw [hprov]; simp, by decide⟩
    · exact ⟨⟨1, "AmazonEC2", 1⟩, by rw [hserv]; simp, by decide⟩
    · intro e he
      exact hregAll _ (hR _ (List.mem_map.2 ⟨e, he, rfl⟩))
    · intro c hc
      exact c2 c (hS c hc)

/-- Witness of C6, amended: one region `us-east-1` whose document holds the
product `ABC123`, under the schedule whose fifth call (the scan of the term
loop) fails; after the first run there is one SKU row `ABC123`, and the second
run leaves the SKU table as it is. -/
theorem main_rerun_idempotent_witness :
    ((main failFifth exampleFetch emptyDB exampleIndex).skus.rows.map
      (fun x => x.SKUCode)).count "ABC123" = 1 ∧
    (main noFaults exampleFetch
      (main failFifth exampleFetch emptyDB exampleIndex) exampleIndex).skus
      = (main failFifth exampleFetch emptyDB exampleIndex).skus :=
  ⟨(main_rerun_idempotent failFifth noFaults exampleFetch exampleFetch exampleIndex exampleIndex
      (by unfold GetOrCreateOK; decide) (by decide) (fun _ h => h)
      (fun _ h => h)).2.2.2.2.2.2.2.1 "ABC123" (by decide) (by decide),
   (main_rerun_idempotent failFifth noFaults exampleFetch exampleFetch exampleIndex exampleIndex
      (by unfold GetOrCreateOK; decide) (by decide) (fun _ h => h)
      (fun _ h => h)).2.2.2.2.2.2.2.2.2.2.2⟩

end CloudCost
